import Mathlib

/-!
Formal verification of the Query Shape Analysis Engine of the MongoTools
repository.  The pure analysis functions of
QuerySetter/mongodb_functions.py (and their duplicates in
querystats-streamlit.py) are shallowly embedded over a JSON-like value
type and their specified properties are proved or refuted.

Modelling conventions:
  - Python dicts are ordered association lists with string keys (SDoc);
    real dicts cannot hold duplicate keys, and theorems that depend on
    key uniqueness carry it as a hypothesis.
  - Python lists are SList, scalars are null / bool / int / str.  Float
    scalars are not modelled; no verified claim involves them.
  - A function decorated with safe_execute returns None when its body
    raises; such functions are embedded with an Option result (none is
    the error marker) or, where an inner recursive call is itself the
    decorated wrapper and therefore swallows its own exceptions, with
    the value null standing for the returned None.
-/

set_option maxRecDepth 1000000
set_option maxHeartbeats 2000000
set_option linter.unusedVariables false

mutual

inductive SVal where
  | null : SVal
  | bool (b : Bool) : SVal
  | int (n : Int) : SVal
  | str (s : String) : SVal
  | arr (items : SList) : SVal
  | doc (entries : SDoc) : SVal

inductive SList where
  | nil : SList
  | cons (v : SVal) (tl : SList) : SList

inductive SDoc where
  | nil : SDoc
  | cons (k : String) (v : SVal) (tl : SDoc) : SDoc

end

deriving instance DecidableEq for SVal
deriving instance DecidableEq for SList
deriving instance DecidableEq for SDoc

/-- Builds an SDoc from a list of key-value pairs (entry order preserved). -/
def sdoc : List (String × SVal) → SDoc
  | [] => .nil
  | (k, v) :: tl => .cons k v (sdoc tl)

/-- Builds an SList from a list of values. -/
def slist : List SVal → SList
  | [] => .nil
  | v :: tl => .cons v (slist tl)

/-- Entries of an SDoc as a list of pairs. -/
def toPairsD : SDoc → List (String × SVal)
  | .nil => []
  | .cons k v tl => (k, v) :: toPairsD tl

/-- Keys of an SDoc in insertion order, as Python dict keys iteration. -/
def docKeys : SDoc → List String
  | .nil => []
  | .cons k _ tl => k :: docKeys tl

/-- Elements of an SList as a Lean list. -/
def toListS : SList → List SVal
  | .nil => []
  | .cons v tl => v :: toListS tl

/-- First-match association lookup; Python dicts hold each key once, so
the first match is the only match. -/
def lookupD : SDoc → String → Option SVal
  | .nil, _ => none
  | .cons k v tl, key => if k = key then some v else lookupD tl key

/-- Membership test for a key, as the Python expression k in d on a dict. -/
def hasKeyD (d : SDoc) (key : String) : Bool := (lookupD d key).isSome

/-- Python dict assignment d[key] = v: replaces the value in place if the
key is present, otherwise appends a new entry. -/
def dictSet : SDoc → String → SVal → SDoc
  | .nil, key, v => .cons key v .nil
  | .cons k w tl, key, v =>
    if k = key then .cons k v tl else .cons k w (dictSet tl key v)

mutual

def sizeS : SVal → Nat
  | .null | .bool _ | .int _ | .str _ => 1
  | .arr l => 1 + sizeL l
  | .doc d => 1 + sizeD d

def sizeL : SList → Nat
  | .nil => 1
  | .cons v tl => 1 + sizeS v + sizeL tl

def sizeD : SDoc → Nat
  | .nil => 1
  | .cons _ v tl => 1 + sizeS v + sizeD tl

end

/-- Python truthiness of a value: None, False, 0, the empty string, the
empty list and the empty dict are falsy; everything else is truthy. -/
def truthy : SVal → Bool
  | .null => false
  | .bool b => b
  | .int n => decide (n ≠ 0)
  | .str s => decide (s.data ≠ [])
  | .arr .nil => false
  | .arr (.cons _ _) => true
  | .doc .nil => false
  | .doc (.cons _ _ _) => true

/-- Tests whether a string begins with a question mark, as the Python
test value.startswith of the one-character prefix. -/
def startsQ (s : String) : Bool :=
  match s.data with
  | [] => false
  | c :: _ => decide (c = '?')

/-- Tests whether the first list is a prefix of the second. -/
def leadList : List Char → List Char → Bool
  | [], _ => true
  | _ :: _, [] => false
  | a :: as, b :: bs => decide (a = b) && leadList as bs

/-- Tests whether the first list occurs contiguously inside the second. -/
def hasSub (needle : List Char) : List Char → Bool
  | [] => leadList needle []
  | c :: tl => leadList needle (c :: tl) || hasSub needle tl

/-- Substring containment, as the Python expression needle in hay on
strings. -/
def containsSub (needle hay : String) : Bool := hasSub needle.data hay.data

/-- Tests whether the second string starts with the first. -/
def startsWithS (pfx s : String) : Bool := leadList pfx.data s.data

/-- Joins strings with a separator. -/
def joinSep (sep : String) : List String → String
  | [] => ""
  | [x] => x
  | x :: xs => x ++ sep ++ joinSep sep xs

/-- Decimal digits of a natural number (fuel-indexed helper). -/
def natDigs : Nat → Nat → List Char
  | 0, _ => []
  | fuel + 1, n =>
    if n = 0 then [] else natDigs fuel (n / 10) ++ [Char.ofNat (48 + n % 10)]

/-- Decimal rendering of a natural number. -/
def natToStr (n : Nat) : String :=
  if n = 0 then "0" else String.mk (natDigs (n + 1) n)

/-- Decimal rendering of an integer, as Python str on an int. -/
def intToStr : Int → String
  | .ofNat n => natToStr n
  | .negSucc n => "-" ++ natToStr (n + 1)

/-- Lowercase hexadecimal digit. -/
def hexChar (n : Nat) : Char :=
  Char.ofNat (if n < 10 then 48 + n else 87 + n)

/-- Fixed-width lowercase hexadecimal rendering. -/
def hexN : Nat → Nat → List Char
  | 0, _ => []
  | k + 1, n => hexN k (n / 16) ++ [hexChar (n % 16)]

/-- ASCII whitespace skipped by the Python integer parser. -/
def isSpaceC (c : Char) : Bool :=
  decide (c = ' ') || decide (c.toNat = 9) || decide (c.toNat = 10) ||
  decide (c.toNat = 13) || decide (c.toNat = 11) || decide (c.toNat = 12)

/-- Value of a hexadecimal digit character, if any. -/
def hexVal (c : Char) : Option Nat :=
  let n := c.toNat
  if 48 ≤ n ∧ n ≤ 57 then some (n - 48)
  else if 97 ≤ n ∧ n ≤ 102 then some (n - 87)
  else if 65 ≤ n ∧ n ≤ 70 then some (n - 55)
  else none

/-- Continuation of a hexadecimal digit run: single underscores are
permitted between digits, as in Python numeric literals. -/
def hexChain (acc : Nat) : List Char → Option Nat
  | [] => some acc
  | '_' :: c :: rest =>
    match hexVal c with
    | some d => hexChain (16 * acc + d) rest
    | none => none
  | c :: rest =>
    match hexVal c with
    | some d => hexChain (16 * acc + d) rest
    | none => none

/-- Start of a hexadecimal digit run right after a 0x prefix, where
Python additionally permits one leading underscore. -/
def afterHexMark : List Char → Option Nat
  | '_' :: c :: rest =>
    match hexVal c with
    | some d => hexChain d rest
    | none => none
  | c :: rest =>
    match hexVal c with
    | some d => hexChain d rest
    | none => none
  | [] => none

/-- Unsigned part of the Python conversion int(s, 16): an optional 0x or
0X prefix followed by hexadecimal digits. -/
def parseHexNum : List Char → Option Nat
  | '0' :: 'x' :: rest => afterHexMark rest
  | '0' :: 'X' :: rest => afterHexMark rest
  | c :: rest =>
    match hexVal c with
    | some d => hexChain d rest
    | none => none
  | [] => none

/-- The ASCII fragment of Python int(s, 16): strip ASCII whitespace,
optional sign, optional 0x prefix, hexadecimal digits with single
underscores between digits.  Where this returns a value, CPython
returns the same value; CPython additionally normalizes Unicode
decimal digits and Unicode whitespace before parsing, so on a string
holding such characters this model reports failure although CPython
accepts it.  The development therefore relies on this conversion only
through its accepting runs. -/
def pyIntHex (s : String) : Option Int :=
  let l := s.data.dropWhile isSpaceC
  let l := (l.reverse.dropWhile isSpaceC).reverse
  match l with
  | '+' :: rest => (parseHexNum rest).map Int.ofNat
  | '-' :: rest => (parseHexNum rest).map (fun n => -(Int.ofNat n))
  | _ => (parseHexNum l).map Int.ofNat

/-- Escape of one character inside a JSON string literal, following the
default Python json.dumps with ensure ascii: backslash, double quote and
the short control escapes receive two-character forms, all remaining
characters outside the printable ASCII range are rendered as u-escapes,
astral characters as surrogate pairs. -/
def jsonEscapeChar (c : Char) : List Char :=
  let n := c.toNat
  if c = '"' then ['\\', '"']
  else if c = '\\' then ['\\', '\\']
  else if n = 10 then ['\\', 'n']
  else if n = 13 then ['\\', 'r']
  else if n = 9 then ['\\', 't']
  else if n = 8 then ['\\', 'b']
  else if n = 12 then ['\\', 'f']
  else if 32 ≤ n ∧ n ≤ 126 then [c]
  else if n < 65536 then '\\' :: 'u' :: hexN 4 n
  else
    let m := n - 65536
    ('\\' :: 'u' :: hexN 4 (55296 + m / 1024)) ++ ('\\' :: 'u' :: hexN 4 (56320 + m % 1024))

/-- JSON rendering of a string literal, as Python json.dumps on a str. -/
def jsonQuote (s : String) : String :=
  String.mk ('"' :: s.data.foldr (fun c acc => jsonEscapeChar c ++ acc) ['"'])

/-- JSON rendering of an object whose values are already rendered
strings, with the default separators of json.dumps. -/
def jsonObjDump (ps : List (String × String)) : String :=
  "\x7b" ++ joinSep ", " (ps.map fun p => jsonQuote p.1 ++ ": " ++ jsonQuote p.2) ++ "\x7d"

/-- JSON rendering of an array whose elements are already rendered
strings. -/
def jsonArrDump (xs : List String) : String :=
  "[" ++ joinSep ", " (xs.map jsonQuote) ++ "]"

/-- Strict lexicographic order on character lists by code point, as
Python string comparison. -/
def listLtC : List Char → List Char → Bool
  | [], [] => false
  | [], _ :: _ => true
  | _ :: _, [] => false
  | a :: as, b :: bs =>
    if a.toNat < b.toNat then true
    else if b.toNat < a.toNat then false
    else listLtC as bs

/-- Strict string order by code point. -/
def strLtB (a b : String) : Bool := listLtC a.data b.data

/-- Stable insertion into a key-sorted pair list. -/
def insByKey {α : Type} (p : String × α) : List (String × α) → List (String × α)
  | [] => [p]
  | q :: qs => if strLtB q.1 p.1 then q :: insByKey p qs else p :: q :: qs

/-- Stable sort of a pair list by key, as Python sorted on dict items;
tuple comparison would reach the values only on equal keys, which a
dict cannot produce. -/
def sortByKey {α : Type} : List (String × α) → List (String × α)
  | [] => []
  | p :: ps => insByKey p (sortByKey ps)

/-- A run of spaces. -/
def spacesN (n : Nat) : String := String.mk (List.replicate n ' ')

/-- Python rstrip with a comma argument: removes every trailing comma. -/
def rstripCommas (s : String) : String :=
  String.mk (s.data.reverse.dropWhile (fun c => decide (c = ','))).reverse

/-- UTF-8 bytes of one character. -/
def utf8Char (c : Char) : List Nat :=
  let n := c.toNat
  if n < 128 then [n]
  else if n < 2048 then [192 + n / 64, 128 + n % 64]
  else if n < 65536 then [224 + n / 4096, 128 + (n / 64) % 64, 128 + n % 64]
  else [240 + n / 262144, 128 + (n / 4096) % 64, 128 + (n / 64) % 64, 128 + n % 64]

/-- UTF-8 encoding of a string, as the Python str.encode method. -/
def utf8Bytes (s : String) : List Nat :=
  s.data.foldr (fun c acc => utf8Char c ++ acc) []

/-- Reduction to a 32-bit word. -/
def w32 (n : Nat) : Nat := n % 4294967296

/-- Right rotation of a 32-bit word. -/
def rotr32 (n x : Nat) : Nat := w32 ((x >>> n) ||| (x <<< (32 - n)))

/-- The Ch function of SHA-256. -/
def shaCh (x y z : Nat) : Nat := Nat.xor (x &&& y) ((Nat.xor x 4294967295) &&& z)

/-- The Maj function of SHA-256. -/
def shaMaj (x y z : Nat) : Nat := Nat.xor (Nat.xor (x &&& y) (x &&& z)) (y &&& z)

/-- The big sigma 0 function of SHA-256. -/
def bigSigma0 (x : Nat) : Nat := Nat.xor (Nat.xor (rotr32 2 x) (rotr32 13 x)) (rotr32 22 x)

/-- The big sigma 1 function of SHA-256. -/
def bigSigma1 (x : Nat) : Nat := Nat.xor (Nat.xor (rotr32 6 x) (rotr32 11 x)) (rotr32 25 x)

/-- The small sigma 0 function of SHA-256. -/
def smallSigma0 (x : Nat) : Nat := Nat.xor (Nat.xor (rotr32 7 x) (rotr32 18 x)) (x >>> 3)

/-- The small sigma 1 function of SHA-256. -/
def smallSigma1 (x : Nat) : Nat := Nat.xor (Nat.xor (rotr32 17 x) (rotr32 19 x)) (x >>> 10)

/-- The round constants of SHA-256. -/
def shaK : List Nat :=
  [1116352408, 1899447441, 3049323471, 3921009573, 961987163, 1508970993, 2453635748, 2870763221,
   3624381080, 310598401, 607225278, 1426881987, 1925078388, 2162078206, 2614888103, 3248222580,
   3835390401, 4022224774, 264347078, 604807628, 770255983, 1249150122, 1555081692, 1996064986,
   2554220882, 2821834349, 2952996808, 3210313671, 3336571891, 3584528711, 113926993, 338241895,
   666307205, 773529912, 1294757372, 1396182291, 1695183700, 1986661051, 2177026350, 2456956037,
   2730485921, 2820302411, 3259730800, 3345764771, 3516065817, 3600352804, 4094571909, 275423344,
   430227734, 506948616, 659060556, 883997877, 958139571, 1322822218, 1537002063, 1747873779,
   1955562222, 2024104815, 2227730452, 2361852424, 2428436474, 2756734187, 3204031479, 3329325298]

/-- The initial hash state of SHA-256. -/
def shaH0 : List Nat :=
  [1779033703, 3144134277, 1013904242, 2773480762, 1359893119, 2600822924, 528734635, 1541459225]

/-- Big-endian byte rendering of fixed width. -/
def beBytes : Nat → Nat → List Nat
  | 0, _ => []
  | k + 1, n => beBytes k (n / 256) ++ [n % 256]

/-- SHA-256 message padding: a 128 byte, zeros to 56 modulo 64, and the
bit length on 8 big-endian bytes. -/
def shaPad (msg : List Nat) : List Nat :=
  let L := msg.length
  msg ++ [128] ++ List.replicate ((119 - L % 64) % 64) 0 ++ beBytes 8 (8 * L)

/-- Splits a padded message into blocks of 64 bytes (fuel is the block
count). -/
def toBlocks : Nat → List Nat → List (List Nat)
  | 0, _ => []
  | k + 1, bytes => bytes.take 64 :: toBlocks k (bytes.drop 64)

/-- Big-endian 32-bit words of a byte block. -/
def toWords : List Nat → List Nat
  | b0 :: b1 :: b2 :: b3 :: rest =>
    (((b0 * 256 + b1) * 256 + b2) * 256 + b3) :: toWords rest
  | _ => []

/-- Message-schedule extension of SHA-256, appending one word per step. -/
def extendW : Nat → List Nat → List Nat
  | 0, w => w
  | k + 1, w =>
    let i := w.length
    extendW k (w ++ [w32 (smallSigma1 (w.getD (i - 2) 0) + w.getD (i - 7) 0 +
      smallSigma0 (w.getD (i - 15) 0) + w.getD (i - 16) 0)])

/-- One compression round of SHA-256. -/
def shaRound (st : Nat × Nat × Nat × Nat × Nat × Nat × Nat × Nat) (kw : Nat × Nat) :
    Nat × Nat × Nat × Nat × Nat × Nat × Nat × Nat :=
  match st, kw with
  | (a, b, c, d, e, f, g, h), (kt, wt) =>
    let t1 := w32 (h + bigSigma1 e + shaCh e f g + kt + wt)
    let t2 := w32 (bigSigma0 a + shaMaj a b c)
    (w32 (t1 + t2), a, b, c, w32 (d + t1), e, f, g)

/-- Processing of one block of SHA-256. -/
def shaBlock (H : List Nat) (block : List Nat) : List Nat :=
  let w := extendW 48 (toWords block)
  match (shaK.zip w).foldl shaRound
    (H.getD 0 0, H.getD 1 0, H.getD 2 0, H.getD 3 0, H.getD 4 0, H.getD 5 0, H.getD 6 0, H.getD 7 0) with
  | (a, b, c, d, e, f, g, h) =>
    [w32 (H.getD 0 0 + a), w32 (H.getD 1 0 + b), w32 (H.getD 2 0 + c), w32 (H.getD 3 0 + d),
     w32 (H.getD 4 0 + e), w32 (H.getD 5 0 + f), w32 (H.getD 6 0 + g), w32 (H.getD 7 0 + h)]

/-- SHA-256 digest of a byte sequence as a lowercase hexadecimal string,
as hashlib sha256 hexdigest. -/
def sha256hex (msg : List Nat) : String :=
  let padded := shaPad msg
  let H := (toBlocks (padded.length / 64) padded).foldl shaBlock shaH0
  String.mk (H.foldr (fun h acc => hexN 8 h ++ acc) [])

/-- Sanity check of the SHA-256 model against the standard empty-message
test vector. -/
theorem sha256hex_empty :
    sha256hex [] = "e3b0c44298fc1c149afbf4c8996fb92427ae41e4649b934ca495991b7852b855" := by
  decide

/-- Sanity check of the SHA-256 model against the standard abc test
vector. -/
theorem sha256hex_abc :
    sha256hex (utf8Bytes "abc") =
      "ba7816bf8f01cfea414140de5dae2223b00361a396177a9cb410ff61f20015ad" := by
  decide

/-- Size bound for values reached through a dict lookup. -/
theorem lookupD_size : ∀ {d : SDoc} {key : String} {v : SVal},
    lookupD d key = some v → sizeS v < sizeD d
  | .cons k w tl, key, v, h => by
    by_cases hk : k = key
    · simp only [lookupD, if_pos hk] at h
      cases h
      simp [sizeD]
      omega
    · simp only [lookupD, if_neg hk] at h
      have := lookupD_size h
      simp [sizeD]
      omega

/-- Keys of a dict as string values, for the Python iteration over a
dict, which yields its keys. -/
def keysAsVals : SDoc → SList
  | .nil => .nil
  | .cons k _ tl => .cons (.str k) (keysAsVals tl)

/-- Characters of a string as one-character string values, for the
Python iteration over a string. -/
def charsAsVals : List Char → SList
  | [] => .nil
  | c :: cs => .cons (.str (String.mk [c])) (charsAsVals cs)

/-- Tests whether a string begins with a dollar sign. -/
def startsDollar (s : String) : Bool :=
  match s.data with
  | [] => false
  | c :: _ => decide (c = '$')

/-- Tests whether any key of a dict begins with a dollar sign. -/
def anyKeyDollar : SDoc → Bool
  | .nil => false
  | .cons k _ tl => startsDollar k || anyKeyDollar tl

/-- First key of a dict that begins with a dollar sign, in iteration
order; the callers only use it when one exists. -/
def firstDollarKey : SDoc → String
  | .nil => ""
  | .cons k _ tl => if startsDollar k then k else firstDollarKey tl

/-- Tests whether a value is a dict containing at least one key that
begins with a dollar sign. -/
def isOpDoc : SVal → Bool
  | .doc d => anyKeyDollar d
  | _ => false

/-- Tests whether a value is a string beginning with a question mark. -/
def isPlaceholderStr : SVal → Bool
  | .str s => startsQ s
  | _ => false

/-- Membership of a string in a string list, as the Python in test. -/
def memStrB (x : String) : List String → Bool
  | [] => false
  | y :: ys => decide (y = x) || memStrB x ys

/-- Membership of a string among the elements of a Python list; the
Python equality of a str with a value of another type is False. -/
def listHasStrB (l : SList) (x : String) : Bool :=
  match l with
  | .nil => false
  | .cons v tl => decide (v = SVal.str x) || listHasStrB tl x

namespace MF

/-!
Embedding of the analysis functions of QuerySetter/mongodb_functions.py.
-/

mutual

/-- Embeds get_stages_r of mongodb_functions.py.  The mutable list arr
is threaded functionally; insert at index 0 is cons.  Each recursive
call in the source goes through the safe_execute wrapper, so an
exception inside a callee never unwinds the caller: a branch that would
raise simply leaves arr as it stands at that point.  On a non-dict
node every branch either fails its membership test, raises a TypeError
in the test itself, or raises on the subsequent string indexing, so arr
is returned unchanged.  When inputStages holds a dict or a string, the
loop iterates over its keys or characters, and get_stages_r on a string
returns with arr unchanged, which is inlined here. -/
def get_stages_r (o : SVal) (arr : List SVal) : List SVal :=
  if truthy o = false then arr
  else
    match o with
    | .doc d =>
      match h1 : lookupD d "queryPlanner" with
      | some v => get_stages_r v arr
      | none =>
      match h2 : lookupD d "winningPlan" with
      | some v => get_stages_r v arr
      | none =>
      match h3 : lookupD d "queryPlan" with
      | some v => get_stages_r v arr
      | none =>
      match lookupD d "stage" with
      | some sv =>
        let arr1 := sv :: arr
        match h4 : lookupD d "inputStage" with
        | some v => get_stages_r v arr1
        | none =>
          match h5 : lookupD d "inputStages" with
          | some (.arr es) => gsrList es arr1
          | some _ => arr1
          | none => arr1
      | none =>
      match h6 : lookupD d "stages" with
      | some sv =>
        if truthy sv = false then arr
        else
          match h7 : sv with
          | .arr (.cons e etl) =>
            match h8 : e with
            | .doc ed =>
              match h9 : lookupD ed "$cursor" with
              | some cv => get_stages_r cv arr
              | none => arr
            | _ => arr
          | _ => arr
      | none => arr
    | _ => arr
termination_by sizeS o
decreasing_by
  · have := lookupD_size h1; simp [sizeS]; omega
  · have := lookupD_size h2; simp [sizeS]; omega
  · have := lookupD_size h3; simp [sizeS]; omega
  · have := lookupD_size h4; simp [sizeS]; omega
  · have := lookupD_size h5; simp [sizeS, sizeL] at *; omega
  · have a1 := lookupD_size h9
    have a2 := lookupD_size h6
    subst h7; subst h8
    simp [sizeS, sizeL, sizeD] at *
    omega

/-- Embeds the loop over inputStages in get_stages_r: each child is
visited in listed order, threading the shared arr. -/
def gsrList (es : SList) (arr : List SVal) : List SVal :=
  match es with
  | .nil => arr
  | .cons e tl => gsrList tl (get_stages_r e arr)
termination_by sizeL es
decreasing_by
  all_goals (simp [sizeS, sizeL]; try omega)

end

/-- Embeds get_plan_stages of mongodb_functions.py: starts from an empty
list and collects stages; its body cannot raise, so it never returns the
None error marker. -/
def get_plan_stages (plan : SVal) : List SVal := get_stages_r plan []

/-- The single operator key kept by simplify_filter for a dict value
containing operator keys: the first key beginning with a dollar sign, in
iteration order. -/
def firstOp : SVal → String
  | .doc d => firstDollarKey d
  | _ => ""

mutual

/-- Embeds simplify_filter of mongodb_functions.py.  Recursive calls in
the source go through the safe_execute wrapper; the only statement of
the body that can raise is the iteration over the value of an and key or
an or key, in which case the decorated call returns None, embedded as
the value null. -/
def simplify_filter : SVal → SVal
  | .doc d =>
    match simplifyEntries d with
    | some entries => .doc entries
    | none => .null
  | .arr l => .arr (simplifyItems l)
  | v => v

/-- Entry loop of the dict branch of simplify_filter; none signals a
TypeError raised while iterating an and or or value. -/
def simplifyEntries : SDoc → Option SDoc
  | .nil => some .nil
  | .cons k v tl =>
    if k = "$and" ∨ k = "$or" then
      match iterAndOr v with
      | some lst =>
        match simplifyEntries tl with
        | some rest => some (.cons k lst rest)
        | none => none
      | none => none
    else if isOpDoc v then
      match simplifyEntries tl with
      | some rest => some (.cons k (.str (firstOp v)) rest)
      | none => none
    else if isPlaceholderStr v then
      match simplifyEntries tl with
      | some rest => some (.cons k (.str "$eq") rest)
      | none => none
    else
      match simplifyEntries tl with
      | some rest => some (.cons k (simplify_filter v) rest)
      | none => none

/-- List branch of simplify_filter. -/
def simplifyItems : SList → SList
  | .nil => .nil
  | .cons v tl => .cons (simplify_filter v) (simplifyItems tl)

/-- Iteration over the value of an and key or an or key: a list maps
each element through simplify_filter; a dict yields its keys and a
string yields its characters, on which simplify_filter is the identity;
any other value raises a TypeError, reported as none. -/
def iterAndOr : SVal → Option SVal
  | .arr l => some (.arr (simplifyItems l))
  | .doc d => some (.arr (keysAsVals d))
  | .str s => some (.arr (charsAsVals s.data))
  | _ => none

end

mutual

/-- Embeds extract_fields of mongodb_functions.py: flattens a simplified
filter into field and value pairs, skipping the and and or keys
themselves while recursing into every value. -/
def extract_fields : SVal → List (String × SVal)
  | .doc d => extractEntries d
  | .arr l => extractItems l
  | _ => []

/-- Entry loop of extract_fields on a dict. -/
def extractEntries : SDoc → List (String × SVal)
  | .nil => []
  | .cons k v tl =>
    (if k = "$and" ∨ k = "$or" then [] else [(k, v)]) ++ extract_fields v ++ extractEntries tl

/-- Element loop of extract_fields on a list. -/
def extractItems : SList → List (String × SVal)
  | .nil => []
  | .cons v tl => extract_fields v ++ extractItems tl

end

/-- The classification loop of suggest_index: first-seen fields tagged
with the eq operator go to the equality list, other first-seen fields to
the range list. -/
def esrLoop : List (String × SVal) → List String → List String → List String × List String
  | [], e, r => (e, r)
  | (fld, v) :: rest, e, r =>
    if memStrB fld e || memStrB fld r then esrLoop rest e r
    else if v = .str "$eq" then esrLoop rest (e ++ [fld]) r
    else esrLoop rest e (r ++ [fld])

/-- The Python expression list(sort_doc.keys()) if sort_doc else [],
which raises when sort_doc is truthy but not a dict. -/
def sortKeysOrFail (v : SVal) : Option (List String) :=
  if truthy v = false then some []
  else
    match v with
    | .doc d => some (docKeys d)
    | _ => none

/-- Embeds suggest_index of mongodb_functions.py.  The suggested index
is an ordered mapping, embedded as a list of field and direction pairs;
the loop never adds a field twice, so dict insertion is list append. -/
def suggest_index (filter_doc sort_doc : SVal) : Option (List (String × Int)) :=
  let simplified := simplify_filter filter_doc
  match esrLoop (extract_fields simplified) [] [] with
  | (equality_fields, range_fields) =>
    match sortKeysOrFail sort_doc with
    | some ks =>
      let sort_fields := ks.filter fun f => !(memStrB f equality_fields || memStrB f range_fields)
      some ((equality_fields ++ sort_fields ++ range_fields).map fun f => (f, (1 : Int)))
    | none => none

/-- The Python membership test of the COLLSCAN literal in one stage
entry: substring on a string, key on a dict, element on a list, and a
TypeError on any other value. -/
def memCollscan : SVal → Option Bool
  | .str s => some (containsSub "COLLSCAN" s)
  | .doc d => some (hasKeyD d "COLLSCAN")
  | .arr l => some (listHasStrB l "COLLSCAN")
  | _ => none

/-- Embeds has_collscan of mongodb_functions.py: any with
short-circuiting, returning none when a membership test raises before a
hit is found. -/
def has_collscan : List SVal → Option Bool
  | [] => some false
  | s :: rest =>
    match memCollscan s with
    | none => none
    | some true => some true
    | some false => has_collscan rest

end MF

/-- Representative value for the date placeholder. -/
def dateRep : SVal := .doc (.cons "$date" (.str "2024-01-01T00:00:00.000Z") .nil)

/-- Representative value for the objectId placeholder. -/
def oidRep : SVal := .doc (.cons "$oid" (.str "000000000000000000000000") .nil)

/-- Representative value for the object placeholder. -/
def objectRep : SVal := .doc (.cons "a" (.int 1) .nil)

/-- Representative value for the binData placeholder. -/
def binDataRep : SVal :=
  .doc (.cons "$binary" (.doc (.cons "base64" (.str "YQ==") (.cons "subType" (.str "00") .nil))) .nil)

/-- Representative value for the timestamp placeholder. -/
def timestampRep : SVal :=
  .doc (.cons "$timestamp" (.doc (.cons "t" (.int 1677749825) (.cons "i" (.int 20) .nil))) .nil)

/-- Representative value for the minKey placeholder. -/
def minKeyRep : SVal := .doc (.cons "$minKey" (.int 1) .nil)

/-- Representative value for the maxKey placeholder. -/
def maxKeyRep : SVal := .doc (.cons "$maxKey" (.int 1) .nil)

namespace MF

mutual

/-- Embeds create_representative_query of mongodb_functions.py: a dict
recurses entrywise through the placeholder dispatch on each field
value, a list maps the function over its elements, and every other
value, a placeholder string included, is returned unchanged. -/
def create_representative_query : SVal → SVal
  | .doc d => .doc (crqEntries d)
  | .arr l => .arr (crqItems l)
  | v => v

/-- Entry loop of the dict branch of create_representative_query. -/
def crqEntries : SDoc → SDoc
  | .nil => .nil
  | .cons k v tl => .cons k (crqValue v) (crqEntries tl)

/-- Dispatch of create_representative_query on one dict field value:
the chain of placeholder tests of the source, then recursion into dict
and list values, with every other value kept as is. -/
def crqValue : SVal → SVal
  | .str s =>
    if startsQ s then
      if s = "?number" then .int 1
      else if s = "?string" then .str "a"
      else if s = "?date" then dateRep
      else if s = "?objectId" then oidRep
      else if s = "?bool" then .bool true
      else if s = "?null" then .null
      else if s = "?object" then objectRep
      else if s = "?binData" then binDataRep
      else if s = "?timestamp" then timestampRep
      else if s = "?minKey" then minKeyRep
      else if s = "?maxKey" then maxKeyRep
      else if s = "?array<>" then .arr (.cons (.str "a") (.cons (.int 1) .nil))
      else if s = "?array<?number>" then .arr (.cons (.int 1) .nil)
      else if s = "?array<?string>" then .arr (.cons (.str "a") .nil)
      else if s = "?array<?date>" then .arr (.cons dateRep .nil)
      else if s = "?array<?objectId>" then .arr (.cons oidRep .nil)
      else if s = "?array<?bool>" then .arr (.cons (.bool true) .nil)
      else if s = "?array<?null>" then .arr (.cons .null .nil)
      else if s = "?array<?object>" then .arr (.cons objectRep .nil)
      else if s = "?array<?binData>" then .arr (.cons binDataRep .nil)
      else if s = "?array<?timestamp>" then .arr (.cons timestampRep .nil)
      else if s = "?array<?minKey>" then .arr (.cons minKeyRep .nil)
      else if s = "?array<?maxKey>" then .arr (.cons maxKeyRep .nil)
      else if s = "?array<?array>" then .arr (.cons (.arr (.cons (.str "a") .nil)) .nil)
      else .str s
    else .str s
  | .doc d => .doc (crqEntries d)
  | .arr l => .arr (crqItems l)
  | v => v

/-- Element loop for list values inside create_representative_query. -/
def crqItems : SList → SList
  | .nil => .nil
  | .cons v tl => .cons (create_representative_query v) (crqItems tl)

end

end MF

mutual

/-- Python repr of a value, used by str on containers.  The quote
selection and the ASCII escapes follow CPython; printable non-ASCII
characters are kept as is, and the non-printable non-ASCII escapes,
which no verified claim reaches, are approximated by keeping the
character. -/
def pyRepr : SVal → String
  | .null => "None"
  | .bool b => if b then "True" else "False"
  | .int n => intToStr n
  | .str s => pyReprStr s
  | .arr l => "[" ++ joinSep ", " (pyReprItems l) ++ "]"
  | .doc d => "\x7b" ++ joinSep ", " (pyReprEntries d) ++ "\x7d"

/-- Python repr of a string. -/
def pyReprStr (s : String) : String :=
  let sq : Char := Char.ofNat 39
  let q : Char :=
    if s.data.contains sq && !(s.data.contains '"') then '"' else sq
  String.mk (q :: s.data.foldr (fun c acc => pyEscChar q c ++ acc) [q])

/-- Escape of one character inside a Python repr string literal. -/
def pyEscChar (q c : Char) : List Char :=
  if c = '\\' then ['\\', '\\']
  else if c = q then ['\\', q]
  else if c.toNat = 10 then ['\\', 'n']
  else if c.toNat = 13 then ['\\', 'r']
  else if c.toNat = 9 then ['\\', 't']
  else if c.toNat < 32 ∨ c.toNat = 127 then '\\' :: 'x' :: hexN 2 c.toNat
  else [c]

/-- Element renderings inside the repr of a list. -/
def pyReprItems : SList → List String
  | .nil => []
  | .cons v tl => pyRepr v :: pyReprItems tl

/-- Entry renderings inside the repr of a dict; keys are strings and
render through the string repr. -/
def pyReprEntries : SDoc → List String
  | .nil => []
  | .cons k v tl => (pyReprStr k ++ ": " ++ pyRepr v) :: pyReprEntries tl

end

/-- Python str of a value: a string is itself, anything else renders as
its repr. -/
def pyStr : SVal → String
  | .str s => s
  | v => pyRepr v

namespace MF

mutual

/-- Embeds the inner transform function of transform_to_mongosh.  The
recursive calls of the inner function are not decorated, so an
exception propagates to the top: none is the raised exception.  The
dollar-key branches are selected in source order; the date and oid
branches format any value through str and cannot raise, the binary
branch raises unless the value is a dict carrying a base64 entry and a
subType entry whose value is a string accepted by int with base 16, and
the timestamp branch raises unless the value is a dict carrying t and i
entries.  The subType conversion is modelled by pyIntHex, the ASCII
fragment of int with base 16, so on a subType string outside that
fragment the model reports the raise marker although the source may
accept the string after Unicode digit normalization; no statement of
the development draws a conclusion from the marker in that case. -/
def mshTransform : SVal → Option SVal
  | .doc d =>
    match lookupD d "$date" with
    | some v => some (.str ("ISODate(\"" ++ pyStr v ++ "\")"))
    | none =>
    match lookupD d "$oid" with
    | some v => some (.str ("ObjectId(\"" ++ pyStr v ++ "\")"))
    | none =>
    match lookupD d "$binary" with
    | some bv =>
      match bv with
      | .doc bd =>
        match lookupD bd "subType" with
        | some (.str st) =>
          match pyIntHex st with
          | some n =>
            match lookupD bd "base64" with
            | some b64 => some (.str ("BinData(" ++ intToStr n ++ ", \"" ++ pyStr b64 ++ "\")"))
            | none => none
          | none => none
        | some _ => none
        | none => none
      | _ => none
    | none =>
    match lookupD d "$timestamp" with
    | some tv =>
      match tv with
      | .doc td =>
        match lookupD td "t", lookupD td "i" with
        | some t, some i => some (.str ("Timestamp(" ++ pyStr t ++ ", " ++ pyStr i ++ ")"))
        | _, _ => none
      | _ => none
    | none =>
    match lookupD d "$minKey" with
    | some _ => some (.str "MinKey()")
    | none =>
    match lookupD d "$maxKey" with
    | some _ => some (.str "MaxKey()")
    | none =>
      match mshTransformDoc d with
      | some entries => some (.doc entries)
      | none => none
  | .arr l =>
    match mshTransformList l with
    | some items => some (.arr items)
    | none => none
  | v => some v

/-- Entry loop of the default dict branch of transform. -/
def mshTransformDoc : SDoc → Option SDoc
  | .nil => some .nil
  | .cons k v tl =>
    match mshTransform v with
    | some w =>
      match mshTransformDoc tl with
      | some rest => some (.cons k w rest)
      | none => none
    | none => none

/-- Element loop of the list branch of transform. -/
def mshTransformList : SList → Option SList
  | .nil => some .nil
  | .cons v tl =>
    match mshTransform v with
    | some w =>
      match mshTransformList tl with
      | some rest => some (.cons w rest)
      | none => none
    | none => none

end

/-- Embeds transform_to_mongosh of mongodb_functions.py: the decorated
wrapper around transform, returning the None error marker when the
inner function raises. -/
def transform_to_mongosh (query : SVal) : Option SVal := mshTransform query

/-- Sentinel test of stringify_for_mongosh on a string: constructor-call
tokens are emitted verbatim. -/
def mshSentinel (s : String) : Bool :=
  startsWithS "ISODate(" s || startsWithS "ObjectId(" s || startsWithS "BinData(" s ||
  startsWithS "Timestamp(" s || decide (s = "MinKey()") || decide (s = "MaxKey()")

/-- String branch of stringify_for_mongosh: a sentinel is kept verbatim,
anything else is JSON quoted. -/
def mshStr (s : String) : String := if mshSentinel s then s else jsonQuote s

/-- Rewrites the last line of a block, stripping its trailing commas. -/
def rstripLastComma : List String → List String
  | [] => []
  | [x] => [rstripCommas x]
  | x :: xs => x :: rstripLastComma xs

mutual

/-- Embeds stringify_for_mongosh of mongodb_functions.py.  The source
renders each dict key through a recursive call with the default indent;
a key is a string, on which that call is exactly the string branch,
inlined here as mshStr.  The body cannot raise, so the decorated
function never returns the None error marker. -/
def stringify_for_mongosh (obj : SVal) (indent : Nat) : String :=
  match obj with
  | .doc .nil => "\x7b\x7d"
  | .doc d =>
    let lines := "\x7b" :: stringifyEntries d indent
    joinSep "\n" (rstripLastComma lines ++ [spacesN indent ++ "\x7d"])
  | .arr .nil => "[]"
  | .arr l =>
    let lines := "[" :: stringifyItems l indent
    joinSep "\n" (rstripLastComma lines ++ [spacesN indent ++ "]"])
  | .str s => mshStr s
  | .null => "null"
  | .bool b => if b then "true" else "false"
  | .int n => intToStr n

/-- Entry lines of the dict branch of stringify_for_mongosh. -/
def stringifyEntries (d : SDoc) (indent : Nat) : List String :=
  match d with
  | .nil => []
  | .cons k v tl =>
    (spacesN (indent + 2) ++ mshStr k ++ ": " ++ stringify_for_mongosh v (indent + 2) ++ ",") ::
      stringifyEntries tl indent

/-- Element lines of the list branch of stringify_for_mongosh. -/
def stringifyItems (l : SList) (indent : Nat) : List String :=
  match l with
  | .nil => []
  | .cons v tl =>
    (spacesN (indent + 2) ++ stringify_for_mongosh v (indent + 2) ++ ",") :: stringifyItems tl indent

end

mutual

/-- Embeds the inner hash element function of hash_query_shape: a dict
serializes as the JSON object of its entries in sorted key order with
each value serialized recursively, a list as the JSON array of its
serialized elements, a placeholder string stays verbatim, and every
other scalar is replaced by its Python type name.  The source sorts the
items and then serializes each value; serialization keeps every key, and
the sort compares keys only, so serializing first and sorting the
resulting pairs afterwards is the same composition. -/
def hashElement : SVal → String
  | .doc d => jsonObjDump (sortByKey (hashEntries d))
  | .arr l => jsonArrDump (hashItems l)
  | .str s => if startsQ s then s else "str"
  | .int _ => "int"
  | .bool _ => "bool"
  | .null => "NoneType"

/-- Serialized entries of a dict inside hash element. -/
def hashEntries : SDoc → List (String × String)
  | .nil => []
  | .cons k v tl => (k, hashElement v) :: hashEntries tl

/-- Serialized elements of a list inside hash element. -/
def hashItems : SList → List String
  | .nil => []
  | .cons v tl => hashElement v :: hashItems tl

end

/-- Embeds hash_query_shape of mongodb_functions.py: the SHA-256 hex
digest of the UTF-8 bytes of the serialized skeleton.  The body is
total, so the decorated function never returns the None error marker. -/
def hash_query_shape (query_shape : SVal) : String :=
  sha256hex (utf8Bytes (hashElement query_shape))

/-- Overwriting insertion into the settings hash map, as Python dict
assignment on string keys. -/
def assocSet : List (String × SVal) → String → SVal → List (String × SVal)
  | [], key, v => [(key, v)]
  | (k, w) :: tl, key, v =>
    if k = key then (k, v) :: tl else (k, w) :: assocSet tl key v

/-- Lookup in the settings hash map, as the Python dict get method. -/
def assocGet : List (String × SVal) → String → Option SVal
  | [], _ => none
  | (k, w) :: tl, key => if k = key then some w else assocGet tl key

/-- Builds the settings hash map of correlate_queries: for each settings
record, the debug shape is its debugQueryShape value with an empty-dict
default, the hashed shape is its filter entry if truthy and otherwise
its pipeline entry, and the record is stored under the hash only when
that shape is truthy.  A non-dict record or a non-dict debug shape
raises, aborting the whole decorated call. -/
def buildSettingsMap : List SVal → List (String × SVal) → Option (List (String × SVal))
  | [], m => some m
  | setting :: rest, m =>
    match setting with
    | .doc skvs =>
      match (lookupD skvs "debugQueryShape").getD (.doc .nil) with
      | .doc dd =>
        let fv := lookupD dd "filter"
        let pv := lookupD dd "pipeline"
        let qs :=
          match fv with
          | some f => if truthy f then f else pv.getD .null
          | none => pv.getD .null
        if truthy qs then
          buildSettingsMap rest (assocSet m (hash_query_shape qs) setting)
        else
          buildSettingsMap rest m
      | _ => none
    | _ => none

/-- Stats loop of correlate_queries: find records hash their filter,
aggregate records hash their pipeline, and every other command is
skipped; a record whose key or queryShape path is missing or not a dict
raises, aborting the whole decorated call.  Each kept record contributes
the pair of itself and the map entry under its hash. -/
def correlateStats : List SVal → List (String × SVal) → Option (List (SVal × Option SVal))
  | [], _ => some []
  | stat :: rest, m =>
    match stat with
    | .doc skvs =>
      match lookupD skvs "key" with
      | some (.doc kd) =>
        match lookupD kd "queryShape" with
        | some (.doc qd) =>
          if lookupD qd "command" = some (.str "find") then
            let shape := (lookupD qd "filter").getD (.doc .nil)
            match correlateStats rest m with
            | some tl => some ((stat, assocGet m (hash_query_shape shape)) :: tl)
            | none => none
          else if lookupD qd "command" = some (.str "aggregate") then
            let shape := (lookupD qd "pipeline").getD (.arr .nil)
            match correlateStats rest m with
            | some tl => some ((stat, assocGet m (hash_query_shape shape)) :: tl)
            | none => none
          else
            correlateStats rest m
        | some _ => none
        | none => none
      | some _ => none
      | none => none
    | _ => none

/-- Embeds correlate_queries of mongodb_functions.py: builds the
settings hash map, then pairs each supported stats record with the map
entry under its shape hash, preserving stats order.  The output pairs
embed the dicts of the source with the stats record first and the
optional matching settings record second; none as the overall result is
the None error marker of the decorated function. -/
def correlate_queries (query_stats query_settings : List SVal) :
    Option (List (SVal × Option SVal)) :=
  match buildSettingsMap query_settings [] with
  | some m => correlateStats query_stats m
  | none => none

/-- Embeds create_rejection_filter of mongodb_functions.py.  The command
defaults to the Unknown literal; the dict literal of the source and the
later assignments are embedded with overwriting dict insertion.  The
model restricts dict keys to strings, so a non-string command value is
mapped to the error marker: Python itself raises TypeError there on an
unhashable command (a dict or a list), while a hashable non-string
command is outside the model, and every verified statement constrains
the command to a string.  A missing cmdNs entry or a non-dict query
shape raises, giving the None error marker.  The call to the decorated
transform_to_mongosh cannot raise here: when the transform fails
internally, its own decorator already returned the Python None value,
embedded as null, and the builder proceeds with it — None is not a
list, so it is attached under the filter key and later serialized as
null. -/
def create_rejection_filter (query_shape rep_query : SVal) : Option String :=
  match query_shape with
  | .doc q =>
    match (lookupD q "command").getD (.str "Unknown") with
    | .str cmd =>
      match lookupD q "cmdNs" with
      | some (.doc ns) =>
        match lookupD ns "db", lookupD ns "coll" with
        | some db, some coll =>
          let sort := lookupD q "sort"
          let sqs : SDoc := dictSet (dictSet .nil cmd coll) "$db" db
          let tq := (transform_to_mongosh rep_query).getD .null
          let sqs :=
            match tq with
            | .arr _ => dictSet sqs "pipeline" tq
            | _ => dictSet sqs "filter" tq
          let sqs :=
            match sort with
            | some sv => if truthy sv then dictSet sqs "sort" sv else sqs
            | none => sqs
          let rejection : SDoc :=
            .cons "setQuerySettings" (.doc sqs)
              (.cons "settings" (.doc (.cons "reject" (.bool true) .nil)) .nil)
          some ("db.adminCommand(\n" ++ stringify_for_mongosh (.doc rejection) 2 ++ "\n)")
        | _, _ => none
      | some _ => none
      | none => none
    | _ => none
  | _ => none

end MF

namespace ST

/-!
Embedding of the duplicated functions of querystats-streamlit.py, whose
bodies are textually identical to their namesakes in
QuerySetter/mongodb_functions.py; they are translated here separately so
that the extensional equality of the two copies can be stated and
proved.
-/

mutual

/-- Embeds get_stages_r of querystats-streamlit.py, under the modelling
conventions of the mongodb_functions.py embedding. -/
def get_stages_r (o : SVal) (arr : List SVal) : List SVal :=
  if truthy o = false then arr
  else
    match o with
    | .doc d =>
      match h1 : lookupD d "queryPlanner" with
      | some v => get_stages_r v arr
      | none =>
      match h2 : lookupD d "winningPlan" with
      | some v => get_stages_r v arr
      | none =>
      match h3 : lookupD d "queryPlan" with
      | some v => get_stages_r v arr
      | none =>
      match lookupD d "stage" with
      | some sv =>
        let arr1 := sv :: arr
        match h4 : lookupD d "inputStage" with
        | some v => get_stages_r v arr1
        | none =>
          match h5 : lookupD d "inputStages" with
          | some (.arr es) => gsrList es arr1
          | some _ => arr1
          | none => arr1
      | none =>
      match h6 : lookupD d "stages" with
      | some sv =>
        if truthy sv = false then arr
        else
          match h7 : sv with
          | .arr (.cons e etl) =>
            match h8 : e with
            | .doc ed =>
              match h9 : lookupD ed "$cursor" with
              | some cv => get_stages_r cv arr
              | none => arr
            | _ => arr
          | _ => arr
      | none => arr
    | _ => arr
termination_by sizeS o
decreasing_by
  · have := lookupD_size h1; simp [sizeS]; omega
  · have := lookupD_size h2; simp [sizeS]; omega
  · have := lookupD_size h3; simp [sizeS]; omega
  · have := lookupD_size h4; simp [sizeS]; omega
  · have := lookupD_size h5; simp [sizeS, sizeL] at *; omega
  · have a1 := lookupD_size h9
    have a2 := lookupD_size h6
    subst h7; subst h8
    simp [sizeS, sizeL, sizeD] at *
    omega

/-- Embeds the loop over inputStages in get_stages_r of
querystats-streamlit.py. -/
def gsrList (es : SList) (arr : List SVal) : List SVal :=
  match es with
  | .nil => arr
  | .cons e tl => gsrList tl (get_stages_r e arr)
termination_by sizeL es
decreasing_by
  all_goals (simp [sizeS, sizeL]; try omega)

end

/-- Embeds get_plan_stages of querystats-streamlit.py. -/
def get_plan_stages (plan : SVal) : List SVal := get_stages_r plan []

mutual

/-- Embeds simplify_filter of querystats-streamlit.py, under the
modelling conventions of the mongodb_functions.py embedding. -/
def simplify_filter : SVal → SVal
  | .doc d =>
    match simplifyEntries d with
    | some entries => .doc entries
    | none => .null
  | .arr l => .arr (simplifyItems l)
  | v => v

/-- Entry loop of the dict branch of simplify_filter of
querystats-streamlit.py. -/
def simplifyEntries : SDoc → Option SDoc
  | .nil => some .nil
  | .cons k v tl =>
    if k = "$and" ∨ k = "$or" then
      match iterAndOr v with
      | some lst =>
        match simplifyEntries tl with
        | some rest => some (.cons k lst rest)
        | none => none
      | none => none
    else if isOpDoc v then
      match simplifyEntries tl with
      | some rest => some (.cons k (.str (MF.firstOp v)) rest)
      | none => none
    else if isPlaceholderStr v then
      match simplifyEntries tl with
      | some rest => some (.cons k (.str "$eq") rest)
      | none => none
    else
      match simplifyEntries tl with
      | some rest => some (.cons k (simplify_filter v) rest)
      | none => none

/-- List branch of simplify_filter of querystats-streamlit.py. -/
def simplifyItems : SList → SList
  | .nil => .nil
  | .cons v tl => .cons (simplify_filter v) (simplifyItems tl)

/-- Iteration over the value of an and key or an or key in
querystats-streamlit.py. -/
def iterAndOr : SVal → Option SVal
  | .arr l => some (.arr (simplifyItems l))
  | .doc d => some (.arr (keysAsVals d))
  | .str s => some (.arr (charsAsVals s.data))
  | _ => none

end

mutual

/-- Embeds extract_fields of querystats-streamlit.py. -/
def extract_fields : SVal → List (String × SVal)
  | .doc d => extractEntries d
  | .arr l => extractItems l
  | _ => []

/-- Entry loop of extract_fields of querystats-streamlit.py. -/
def extractEntries : SDoc → List (String × SVal)
  | .nil => []
  | .cons k v tl =>
    (if k = "$and" ∨ k = "$or" then [] else [(k, v)]) ++ extract_fields v ++ extractEntries tl

/-- Element loop of extract_fields of querystats-streamlit.py. -/
def extractItems : SList → List (String × SVal)
  | .nil => []
  | .cons v tl => extract_fields v ++ extractItems tl

end

/-- Classification loop of suggest_index of querystats-streamlit.py. -/
def esrLoop : List (String × SVal) → List String → List String → List String × List String
  | [], e, r => (e, r)
  | (fld, v) :: rest, e, r =>
    if memStrB fld e || memStrB fld r then esrLoop rest e r
    else if v = .str "$eq" then esrLoop rest (e ++ [fld]) r
    else esrLoop rest e (r ++ [fld])

/-- Embeds suggest_index of querystats-streamlit.py. -/
def suggest_index (filter_doc sort_doc : SVal) : Option (List (String × Int)) :=
  let simplified := simplify_filter filter_doc
  match esrLoop (extract_fields simplified) [] [] with
  | (equality_fields, range_fields) =>
    match MF.sortKeysOrFail sort_doc with
    | some ks =>
      let sort_fields := ks.filter fun f => !(memStrB f equality_fields || memStrB f range_fields)
      some ((equality_fields ++ sort_fields ++ range_fields).map fun f => (f, (1 : Int)))
    | none => none

/-- Embeds has_collscan of querystats-streamlit.py. -/
def has_collscan : List SVal → Option Bool
  | [] => some false
  | s :: rest =>
    match MF.memCollscan s with
    | none => none
    | some true => some true
    | some false => has_collscan rest

end ST

-- SCRATCH (to be removed)
example : MF.hash_query_shape (.doc (.cons "a" (.int 5) .nil)) =
    "67b0fa4014d7863cd4d1fa530b8948a8c74699d3923df227f8ec407cbcb9f15f" := by decide

example : MF.hash_query_shape (.doc (.cons "a" (.str "?number")
      (.cons "b" (.doc (.cons "$gt" (.str "?number") .nil)) .nil))) =
    "6e236bf9ae785169747537c6a6467ded5bc0c049d1e2d13cde84959bd0809562" := by decide

example : MF.hash_query_shape (.arr (.cons (.doc (.cons "$match" (.doc (.cons "s" (.str "?string") .nil)) .nil)) .nil)) =
    "f3009447f1d0ea5a80dddd755ce40abc3a3a1203f60ccf9e4811d78e24d999bb" := by decide

example : MF.suggest_index
    (.doc (.cons "a" (.str "?number") (.cons "b" (.doc (.cons "$gt" (.str "?number") .nil)) .nil)))
    (.doc (.cons "c" (.int 1) .nil)) =
    some [("a", 1), ("c", 1), ("b", 1)] := by decide

example : MF.suggest_index (.doc .nil) .null = some [] := by decide

example : MF.create_representative_query (.doc (.cons "status" (.str "?string") .nil)) =
    .doc (.cons "status" (.str "a") .nil) := by decide

example : MF.create_representative_query (.arr (.cons (.str "?number") .nil)) =
    .arr (.cons (.str "?number") .nil) := by decide

example : MF.stringify_for_mongosh ((MF.transform_to_mongosh
      (.doc (.cons "when" dateRep .nil))).getD .null) 0 =
    "\x7b\n  \"when\": ISODate(\"2024-01-01T00:00:00.000Z\")\n\x7d" := by decide

example : MF.create_rejection_filter
    (.doc (.cons "command" (.str "find")
      (.cons "cmdNs" (.doc (.cons "db" (.str "mydb") (.cons "coll" (.str "mycoll") .nil)))
      (.cons "filter" (.doc (.cons "status" (.str "?string") .nil)) .nil))))
    (.doc (.cons "status" (.str "a") .nil)) =
    some "db.adminCommand(\n\x7b\n    \"setQuerySettings\": \x7b\n      \"find\": \"mycoll\",\n      \"$db\": \"mydb\",\n      \"filter\": \x7b\n        \"status\": \"a\"\n      \x7d\n    \x7d,\n    \"settings\": \x7b\n      \"reject\": true\n    \x7d\n  \x7d\n)" := by decide

example : MF.create_rejection_filter
    (.doc (.cons "command" (.str "count")
      (.cons "cmdNs" (.doc (.cons "db" (.str "d") (.cons "coll" (.str "c") .nil)))
      (.cons "sort" (.doc (.cons "x" (.int 1) .nil)) .nil))))
    (.doc (.cons "a" (.int 1) .nil)) =
    some "db.adminCommand(\n\x7b\n    \"setQuerySettings\": \x7b\n      \"count\": \"c\",\n      \"$db\": \"d\",\n      \"filter\": \x7b\n        \"a\": 1\n      \x7d,\n      \"sort\": \x7b\n        \"x\": 1\n      \x7d\n    \x7d,\n    \"settings\": \x7b\n      \"reject\": true\n    \x7d\n  \x7d\n)" := by decide

example : MF.transform_to_mongosh (.doc (.cons "$binary" (.int 1) .nil)) = none := by decide

example : MF.has_collscan [.str "COLLSCAN", .str "FETCH"] = some true := by decide
example : MF.has_collscan [.str "IXSCAN", .str "FETCH"] = some false := by decide

example : MF.get_plan_stages (.doc (.cons "queryPlanner" (.doc (.cons "winningPlan"
    (.doc (.cons "stage" (.str "FETCH") (.cons "inputStage" (.doc (.cons "stage" (.str "IXSCAN") .nil)) .nil))) .nil)) .nil)) =
    [.str "IXSCAN", .str "FETCH"] := by
  simp [MF.get_plan_stages, MF.get_stages_r, lookupD, truthy]

/-- Indirection layers an explain plan may be wrapped in before the
stage chain begins. -/
inductive PlanWrapper where
  | queryPlanner : PlanWrapper
  | winningPlan : PlanWrapper
  | queryPlan : PlanWrapper
  | cursorStages : PlanWrapper

/-- Wraps a plan document in one indirection layer. -/
def applyWrapper : PlanWrapper → SVal → SVal
  | .queryPlanner, v => .doc (.cons "queryPlanner" v .nil)
  | .winningPlan, v => .doc (.cons "winningPlan" v .nil)
  | .queryPlan, v => .doc (.cons "queryPlan" v .nil)
  | .cursorStages, v =>
    .doc (.cons "stages" (.arr (.cons (.doc (.cons "$cursor" v .nil)) .nil)) .nil)

/-- Builds a linear explain-plan chain: the listed stages from outermost
to innermost, linked by inputStage. -/
def mkChain : List String → SVal
  | [] => .null
  | [n] => .doc (.cons "stage" (.str n) .nil)
  | n :: ns => .doc (.cons "stage" (.str n) (.cons "inputStage" (mkChain ns) .nil))

/-- Recognizer mirroring the traversal of get_stages_r: true exactly
when the traversal would record at least one stage. -/
def findsStage (o : SVal) : Bool :=
  if truthy o = false then false
  else
    match o with
    | .doc d =>
      match h1 : lookupD d "queryPlanner" with
      | some v => findsStage v
      | none =>
      match h2 : lookupD d "winningPlan" with
      | some v => findsStage v
      | none =>
      match h3 : lookupD d "queryPlan" with
      | some v => findsStage v
      | none =>
      match lookupD d "stage" with
      | some _ => true
      | none =>
      match h6 : lookupD d "stages" with
      | some sv =>
        if truthy sv = false then false
        else
          match h7 : sv with
          | .arr (.cons e etl) =>
            match h8 : e with
            | .doc ed =>
              match h9 : lookupD ed "$cursor" with
              | some cv => findsStage cv
              | none => false
            | _ => false
          | _ => false
      | none => false
    | _ => false
termination_by sizeS o
decreasing_by
  · have := lookupD_size h1; simp [sizeS]; omega
  · have := lookupD_size h2; simp [sizeS]; omega
  · have := lookupD_size h3; simp [sizeS]; omega
  · have a1 := lookupD_size h9
    have a2 := lookupD_size h6
    subst h7; subst h8
    simp [sizeS, sizeL, sizeD] at *
    omega

/-- Keeps the first occurrence of every key of a pair list, preserving
order of first occurrences. -/
def firstOccKeys : List (String × SVal) → List (String × SVal)
  | [] => []
  | (k, v) :: rest => (k, v) :: (firstOccKeys rest).filter fun p => decide (p.1 ≠ k)

/-- Specification-side equality fields of a filter: first-seen fields of
the simplified filter whose tag is exactly the eq operator, in order. -/
def eqFieldsSpec (f : SVal) : List String :=
  ((firstOccKeys (MF.extract_fields (MF.simplify_filter f))).filter fun p =>
    decide (p.2 = SVal.str "$eq")).map Prod.fst

/-- Specification-side range fields of a filter: the remaining
first-seen fields, in order. -/
def rgFieldsSpec (f : SVal) : List String :=
  ((firstOccKeys (MF.extract_fields (MF.simplify_filter f))).filter fun p =>
    decide (¬p.2 = SVal.str "$eq")).map Prod.fst

/-- The placeholder grammar handled by create_representative_query,
as a table from placeholder token to representative value. -/
def placeholderRep (s : String) : Option SVal :=
  if s = "?number" then some (.int 1)
  else if s = "?string" then some (.str "a")
  else if s = "?date" then some dateRep
  else if s = "?objectId" then some oidRep
  else if s = "?bool" then some (.bool true)
  else if s = "?null" then some .null
  else if s = "?object" then some objectRep
  else if s = "?binData" then some binDataRep
  else if s = "?timestamp" then some timestampRep
  else if s = "?minKey" then some minKeyRep
  else if s = "?maxKey" then some maxKeyRep
  else if s = "?array<>" then some (.arr (.cons (.str "a") (.cons (.int 1) .nil)))
  else if s = "?array<?number>" then some (.arr (.cons (.int 1) .nil))
  else if s = "?array<?string>" then some (.arr (.cons (.str "a") .nil))
  else if s = "?array<?date>" then some (.arr (.cons dateRep .nil))
  else if s = "?array<?objectId>" then some (.arr (.cons oidRep .nil))
  else if s = "?array<?bool>" then some (.arr (.cons (.bool true) .nil))
  else if s = "?array<?null>" then some (.arr (.cons .null .nil))
  else if s = "?array<?object>" then some (.arr (.cons objectRep .nil))
  else if s = "?array<?binData>" then some (.arr (.cons binDataRep .nil))
  else if s = "?array<?timestamp>" then some (.arr (.cons timestampRep .nil))
  else if s = "?array<?minKey>" then some (.arr (.cons minKeyRep .nil))
  else if s = "?array<?maxKey>" then some (.arr (.cons maxKeyRep .nil))
  else if s = "?array<?array>" then some (.arr (.cons (.arr (.cons (.str "a") .nil)) .nil))
  else none

/-- Specification-side transform of one document field value under
create_representative_query: a placeholder string belonging to the
grammar becomes its representative, a placeholder outside the grammar
and any other string pass through, and containers recurse through the
builder itself. -/
def fieldRepSpec : SVal → SVal
  | .str s =>
    if startsQ s then (placeholderRep s).getD (.str s) else .str s
  | .doc d => MF.create_representative_query (.doc d)
  | .arr l => MF.create_representative_query (.arr l)
  | v => v

mutual

/-- Specification-side type erasure of a shape: document keys taken in
sorted order, placeholder strings kept verbatim, every other scalar
replaced by its Python runtime type name. -/
def typeErase : SVal → SVal
  | .doc d => .doc (sdoc (sortByKey (typeEraseEntries d)))
  | .arr l => .arr (typeEraseItems l)
  | .str s => if startsQ s then .str s else .str "str"
  | .int _ => .str "int"
  | .bool _ => .str "bool"
  | .null => .str "NoneType"

/-- Erased entries of a document, in original order. -/
def typeEraseEntries : SDoc → List (String × SVal)
  | .nil => []
  | .cons k v tl => (k, typeErase v) :: typeEraseEntries tl

/-- Erased elements of a sequence. -/
def typeEraseItems : SList → SList
  | .nil => .nil
  | .cons v tl => .cons (typeErase v) (typeEraseItems tl)

end

/-- Well-formedness of a binary extended-JSON leaf for the transform of
transform_to_mongosh: a dict carrying a base64 entry and a subType entry
whose value is a string accepted by the ASCII fragment of int with base
16; on such leaves the source transform succeeds. -/
def goodBinary : SVal → Bool
  | .doc bd =>
    match lookupD bd "subType" with
    | some (.str st) => (pyIntHex st).isSome && hasKeyD bd "base64"
    | _ => false
  | _ => false

/-- Well-formedness of a timestamp extended-JSON leaf for the transform
of transform_to_mongosh: a dict carrying t and i entries. -/
def goodTimestamp : SVal → Bool
  | .doc td => hasKeyD td "t" && hasKeyD td "i"
  | _ => false

mutual

/-- Recognizer of the inputs on which the model transform reports
failure: somewhere in the traversal a binary key with a value outside
goodBinary, or a timestamp key with a value outside goodTimestamp, is
selected.  On the subType boundary this over-approximates the raises of
the source, which may accept a subType string after Unicode digit
normalization; the structural recognizer hasBadStruct below
under-approximates them. -/
def hasBadExt : SVal → Bool
  | .doc d =>
    match lookupD d "$date" with
    | some _ => false
    | none =>
    match lookupD d "$oid" with
    | some _ => false
    | none =>
    match lookupD d "$binary" with
    | some bv => !goodBinary bv
    | none =>
    match lookupD d "$timestamp" with
    | some tv => !goodTimestamp tv
    | none =>
    match lookupD d "$minKey" with
    | some _ => false
    | none =>
    match lookupD d "$maxKey" with
    | some _ => false
    | none => hasBadExtDoc d
  | .arr l => hasBadExtList l
  | _ => false

/-- Entrywise recognizer for the default dict branch. -/
def hasBadExtDoc : SDoc → Bool
  | .nil => false
  | .cons _ v tl => hasBadExt v || hasBadExtDoc tl

/-- Elementwise recognizer for the list branch. -/
def hasBadExtList : SList → Bool
  | .nil => false
  | .cons v tl => hasBadExt v || hasBadExtList tl

end

/-- Structural well-formedness of a binary extended-JSON leaf: a dict
carrying a base64 entry and a subType entry whose value is a string.
Unlike goodBinary this does not constrain how the subType string is
read by int with base 16: on a leaf outside this predicate the source
transform raises regardless of that conversion, by subscripting a
non-dict, by a missing key, or by handing int a non-string with an
explicit base. -/
def goodBinaryStruct : SVal → Bool
  | .doc bd =>
    match lookupD bd "subType" with
    | some (.str _) => hasKeyD bd "base64"
    | _ => false
  | _ => false

mutual

/-- Recognizer of the inputs whose traversal selects a binary or
timestamp key carrying a structurally ill-formed value; on every such
input the source transform raises whatever int with base 16 does on
subType strings, so this under-approximates its raises. -/
def hasBadStruct : SVal → Bool
  | .doc d =>
    match lookupD d "$date" with
    | some _ => false
    | none =>
    match lookupD d "$oid" with
    | some _ => false
    | none =>
    match lookupD d "$binary" with
    | some bv => !goodBinaryStruct bv
    | none =>
    match lookupD d "$timestamp" with
    | some tv => !goodTimestamp tv
    | none =>
    match lookupD d "$minKey" with
    | some _ => false
    | none =>
    match lookupD d "$maxKey" with
    | some _ => false
    | none => hasBadStructDoc d
  | .arr l => hasBadStructList l
  | _ => false

/-- Entrywise structural recognizer for the default dict branch. -/
def hasBadStructDoc : SDoc → Bool
  | .nil => false
  | .cons _ v tl => hasBadStruct v || hasBadStructDoc tl

/-- Elementwise structural recognizer for the list branch. -/
def hasBadStructList : SList → Bool
  | .nil => false
  | .cons v tl => hasBadStruct v || hasBadStructList tl

end

/-- The Python expression selecting the filter entry if truthy and
otherwise the pipeline entry with a None default, as the or chain of
the settings loop of correlate_queries. -/
def chosenOf (dd : SDoc) : SVal :=
  match lookupD dd "filter" with
  | some f => if truthy f then f else (lookupD dd "pipeline").getD .null
  | none => (lookupD dd "pipeline").getD .null

/-- The shape a settings record offers for hashing, when the record and
its debug shape are dicts. -/
def chosenShape (setting : SVal) : Option SVal :=
  match setting with
  | .doc skvs =>
    match (lookupD skvs "debugQueryShape").getD (.doc .nil) with
    | .doc dd => some (chosenOf dd)
    | _ => none
  | _ => none

/-- The query shape dict of a stats record under its key and queryShape
path, when present. -/
def statQS (stat : SVal) : Option SDoc :=
  match stat with
  | .doc skvs =>
    match lookupD skvs "key" with
    | some (.doc kd) =>
      match lookupD kd "queryShape" with
      | some (.doc qd) => some qd
      | _ => none
    | _ => none
  | _ => none

/-- Tests whether a stats record carries a supported command. -/
def supportedB (stat : SVal) : Bool :=
  match statQS stat with
  | some qd =>
    decide (lookupD qd "command" = some (.str "find")) ||
      decide (lookupD qd "command" = some (.str "aggregate"))
  | none => false

/-- The value a supported stats record hashes: its filter with an
empty-dict default for find, its pipeline with an empty-list default
for aggregate. -/
def statShape (stat : SVal) : SVal :=
  match statQS stat with
  | some qd =>
    if lookupD qd "command" = some (.str "find") then (lookupD qd "filter").getD (.doc .nil)
    else (lookupD qd "pipeline").getD (.arr .nil)
  | none => .null

/-- String case of the field-value dispatch of
create_representative_query in table form. -/
theorem crqValue_eq_str : ∀ s, MF.crqValue (.str s) = fieldRepSpec (.str s) := by
  intro s
  show (if startsQ s then (if s = "?number" then SVal.int 1 else (if s = "?string" then SVal.str "a" else (if s = "?date" then dateRep else (if s = "?objectId" then oidRep else (if s = "?bool" then SVal.bool true else (if s = "?null" then SVal.null else (if s = "?object" then objectRep else (if s = "?binData" then binDataRep else (if s = "?timestamp" then timestampRep else (if s = "?minKey" then minKeyRep else (if s = "?maxKey" then maxKeyRep else (if s = "?array<>" then SVal.arr (SList.cons (SVal.str "a") (SList.cons (SVal.int 1) SList.nil)) else (if s = "?array<?number>" then SVal.arr (SList.cons (SVal.int 1) SList.nil) else (if s = "?array<?string>" then SVal.arr (SList.cons (SVal.str "a") SList.nil) else (if s = "?array<?date>" then SVal.arr (SList.cons dateRep SList.nil) else (if s = "?array<?objectId>" then SVal.arr (SList.cons oidRep SList.nil) else (if s = "?array<?bool>" then SVal.arr (SList.cons (SVal.bool true) SList.nil) else (if s = "?array<?null>" then SVal.arr (SList.cons SVal.null SList.nil) else (if s = "?array<?object>" then SVal.arr (SList.cons objectRep SList.nil) else (if s = "?array<?binData>" then SVal.arr (SList.cons binDataRep SList.nil) else (if s = "?array<?timestamp>" then SVal.arr (SList.cons timestampRep SList.nil) else (if s = "?array<?minKey>" then SVal.arr (SList.cons minKeyRep SList.nil) else (if s = "?array<?maxKey>" then SVal.arr (SList.cons maxKeyRep SList.nil) else (if s = "?array<?array>" then SVal.arr (SList.cons (SVal.arr (SList.cons (SVal.str "a") SList.nil)) SList.nil) else SVal.str s)))))))))))))))))))))))) else SVal.str s) =
    (if startsQ s then Option.getD (if s = "?number" then some (SVal.int 1) else (if s = "?string" then some (SVal.str "a") else (if s = "?date" then some (dateRep) else (if s = "?objectId" then some (oidRep) else (if s = "?bool" then some (SVal.bool true) else (if s = "?null" then some (SVal.null) else (if s = "?object" then some (objectRep) else (if s = "?binData" then some (binDataRep) else (if s = "?timestamp" then some (timestampRep) else (if s = "?minKey" then some (minKeyRep) else (if s = "?maxKey" then some (maxKeyRep) else (if s = "?array<>" then some (SVal.arr (SList.cons (SVal.str "a") (SList.cons (SVal.int 1) SList.nil))) else (if s = "?array<?number>" then some (SVal.arr (SList.cons (SVal.int 1) SList.nil)) else (if s = "?array<?string>" then some (SVal.arr (SList.cons (SVal.str "a") SList.nil)) else (if s = "?array<?date>" then some (SVal.arr (SList.cons dateRep SList.nil)) else (if s = "?array<?objectId>" then some (SVal.arr (SList.cons oidRep SList.nil)) else (if s = "?array<?bool>" then some (SVal.arr (SList.cons (SVal.bool true) SList.nil)) else (if s = "?array<?null>" then some (SVal.arr (SList.cons SVal.null SList.nil)) else (if s = "?array<?object>" then some (SVal.arr (SList.cons objectRep SList.nil)) else (if s = "?array<?binData>" then some (SVal.arr (SList.cons binDataRep SList.nil)) else (if s = "?array<?timestamp>" then some (SVal.arr (SList.cons timestampRep SList.nil)) else (if s = "?array<?minKey>" then some (SVal.arr (SList.cons minKeyRep SList.nil)) else (if s = "?array<?maxKey>" then some (SVal.arr (SList.cons maxKeyRep SList.nil)) else (if s = "?array<?array>" then some (SVal.arr (SList.cons (SVal.arr (SList.cons (SVal.str "a") SList.nil)) SList.nil)) else (none : Option SVal))))))))))))))))))))))))) (SVal.str s) else SVal.str s)
  by_cases g0 : startsQ s = true
  case neg => rw [if_neg g0, if_neg g0]
  case pos =>
    rw [if_pos g0, if_pos g0]
    by_cases g1 : s = "?number"
    case pos =>
      rw [if_pos g1, if_pos g1]
      rfl
    case neg =>
    rw [if_neg g1, if_neg g1]
    by_cases g2 : s = "?string"
    case pos =>
      rw [if_pos g2, if_pos g2]
      rfl
    case neg =>
    rw [if_neg g2, if_neg g2]
    by_cases g3 : s = "?date"
    case pos =>
      rw [if_pos g3, if_pos g3]
      rfl
    case neg =>
    rw [if_neg g3, if_neg g3]
    by_cases g4 : s = "?objectId"
    case pos =>
      rw [if_pos g4, if_pos g4]
      rfl
    case neg =>
    rw [if_neg g4, if_neg g4]
    by_cases g5 : s = "?bool"
    case pos =>
      rw [if_pos g5, if_pos g5]
      rfl
    case neg =>
    rw [if_neg g5, if_neg g5]
    by_cases g6 : s = "?null"
    case pos =>
      rw [if_pos g6, if_pos g6]
      rfl
    case neg =>
    rw [if_neg g6, if_neg g6]
    by_cases g7 : s = "?object"
    case pos =>
      rw [if_pos g7, if_pos g7]
      rfl
    case neg =>
    rw [if_neg g7, if_neg g7]
    by_cases g8 : s = "?binData"
    case pos =>
      rw [if_pos g8, if_pos g8]
      rfl
    case neg =>
    rw [if_neg g8, if_neg g8]
    by_cases g9 : s = "?timestamp"
    case pos =>
      rw [if_pos g9, if_pos g9]
      rfl
    case neg =>
    rw [if_neg g9, if_neg g9]
    by_cases g10 : s = "?minKey"
    case pos =>
      rw [if_pos g10, if_pos g10]
      rfl
    case neg =>
    rw [if_neg g10, if_neg g10]
    by_cases g11 : s = "?maxKey"
    case pos =>
      rw [if_pos g11, if_pos g11]
      rfl
    case neg =>
    rw [if_neg g11, if_neg g11]
    by_cases g12 : s = "?array<>"
    case pos =>
      rw [if_pos g12, if_pos g12]
      rfl
    case neg =>
    rw [if_neg g12, if_neg g12]
    by_cases g13 : s = "?array<?number>"
    case pos =>
      rw [if_pos g13, if_pos g13]
      rfl
    case neg =>
    rw [if_neg g13, if_neg g13]
    by_cases g14 : s = "?array<?string>"
    case pos =>
      rw [if_pos g14, if_pos g14]
      rfl
    case neg =>
    rw [if_neg g14, if_neg g14]
    by_cases g15 : s = "?array<?date>"
    case pos =>
      rw [if_pos g15, if_pos g15]
      rfl
    case neg =>
    rw [if_neg g15, if_neg g15]
    by_cases g16 : s = "?array<?objectId>"
    case pos =>
      rw [if_pos g16, if_pos g16]
      rfl
    case neg =>
    rw [if_neg g16, if_neg g16]
    by_cases g17 : s = "?array<?bool>"
    case pos =>
      rw [if_pos g17, if_pos g17]
      rfl
    case neg =>
    rw [if_neg g17, if_neg g17]
    by_cases g18 : s = "?array<?null>"
    case pos =>
      rw [if_pos g18, if_pos g18]
      rfl
    case neg =>
    rw [if_neg g18, if_neg g18]
    by_cases g19 : s = "?array<?object>"
    case pos =>
      rw [if_pos g19, if_pos g19]
      rfl
    case neg =>
    rw [if_neg g19, if_neg g19]
    by_cases g20 : s = "?array<?binData>"
    case pos =>
      rw [if_pos g20, if_pos g20]
      rfl
    case neg =>
    rw [if_neg g20, if_neg g20]
    by_cases g21 : s = "?array<?timestamp>"
    case pos =>
      rw [if_pos g21, if_pos g21]
      rfl
    case neg =>
    rw [if_neg g21, if_neg g21]
    by_cases g22 : s = "?array<?minKey>"
    case pos =>
      rw [if_pos g22, if_pos g22]
      rfl
    case neg =>
    rw [if_neg g22, if_neg g22]
    by_cases g23 : s = "?array<?maxKey>"
    case pos =>
      rw [if_pos g23, if_pos g23]
      rfl
    case neg =>
    rw [if_neg g23, if_neg g23]
    by_cases g24 : s = "?array<?array>"
    case pos =>
      rw [if_pos g24, if_pos g24]
      rfl
    case neg =>
    rw [if_neg g24, if_neg g24]
    rfl

/-- Every representative value of the placeholder grammar is a fixed
point of the builder and of its field-value dispatch. -/
theorem placeholderRep_fix : ∀ s v, placeholderRep s = some v →
    MF.crqValue v = v ∧ MF.create_representative_query v = v := by
  intro s v h
  have hh : (if s = "?number" then some (SVal.int 1) else (if s = "?string" then some (SVal.str "a") else (if s = "?date" then some (dateRep) else (if s = "?objectId" then some (oidRep) else (if s = "?bool" then some (SVal.bool true) else (if s = "?null" then some (SVal.null) else (if s = "?object" then some (objectRep) else (if s = "?binData" then some (binDataRep) else (if s = "?timestamp" then some (timestampRep) else (if s = "?minKey" then some (minKeyRep) else (if s = "?maxKey" then some (maxKeyRep) else (if s = "?array<>" then some (SVal.arr (SList.cons (SVal.str "a") (SList.cons (SVal.int 1) SList.nil))) else (if s = "?array<?number>" then some (SVal.arr (SList.cons (SVal.int 1) SList.nil)) else (if s = "?array<?string>" then some (SVal.arr (SList.cons (SVal.str "a") SList.nil)) else (if s = "?array<?date>" then some (SVal.arr (SList.cons dateRep SList.nil)) else (if s = "?array<?objectId>" then some (SVal.arr (SList.cons oidRep SList.nil)) else (if s = "?array<?bool>" then some (SVal.arr (SList.cons (SVal.bool true) SList.nil)) else (if s = "?array<?null>" then some (SVal.arr (SList.cons SVal.null SList.nil)) else (if s = "?array<?object>" then some (SVal.arr (SList.cons objectRep SList.nil)) else (if s = "?array<?binData>" then some (SVal.arr (SList.cons binDataRep SList.nil)) else (if s = "?array<?timestamp>" then some (SVal.arr (SList.cons timestampRep SList.nil)) else (if s = "?array<?minKey>" then some (SVal.arr (SList.cons minKeyRep SList.nil)) else (if s = "?array<?maxKey>" then some (SVal.arr (SList.cons maxKeyRep SList.nil)) else (if s = "?array<?array>" then some (SVal.arr (SList.cons (SVal.arr (SList.cons (SVal.str "a") SList.nil)) SList.nil)) else (none : Option SVal))))))))))))))))))))))))) = some v := h
  by_cases g1 : s = "?number"
  case pos =>
    rw [if_pos g1] at hh
    cases hh
    exact ⟨by decide, by decide⟩
  case neg =>
  rw [if_neg g1] at hh
  by_cases g2 : s = "?string"
  case pos =>
    rw [if_pos g2] at hh
    cases hh
    exact ⟨by decide, by decide⟩
  case neg =>
  rw [if_neg g2] at hh
  by_cases g3 : s = "?date"
  case pos =>
    rw [if_pos g3] at hh
    cases hh
    exact ⟨by decide, by decide⟩
  case neg =>
  rw [if_neg g3] at hh
  by_cases g4 : s = "?objectId"
  case pos =>
    rw [if_pos g4] at hh
    cases hh
    exact ⟨by decide, by decide⟩
  case neg =>
  rw [if_neg g4] at hh
  by_cases g5 : s = "?bool"
  case pos =>
    rw [if_pos g5] at hh
    cases hh
    exact ⟨by decide, by decide⟩
  case neg =>
  rw [if_neg g5] at hh
  by_cases g6 : s = "?null"
  case pos =>
    rw [if_pos g6] at hh
    cases hh
    exact ⟨by decide, by decide⟩
  case neg =>
  rw [if_neg g6] at hh
  by_cases g7 : s = "?object"
  case pos =>
    rw [if_pos g7] at hh
    cases hh
    exact ⟨by decide, by decide⟩
  case neg =>
  rw [if_neg g7] at hh
  by_cases g8 : s = "?binData"
  case pos =>
    rw [if_pos g8] at hh
    cases hh
    exact ⟨by decide, by decide⟩
  case neg =>
  rw [if_neg g8] at hh
  by_cases g9 : s = "?timestamp"
  case pos =>
    rw [if_pos g9] at hh
    cases hh
    exact ⟨by decide, by decide⟩
  case neg =>
  rw [if_neg g9] at hh
  by_cases g10 : s = "?minKey"
  case pos =>
    rw [if_pos g10] at hh
    cases hh
    exact ⟨by decide, by decide⟩
  case neg =>
  rw [if_neg g10] at hh
  by_cases g11 : s = "?maxKey"
  case pos =>
    rw [if_pos g11] at hh
    cases hh
    exact ⟨by decide, by decide⟩
  case neg =>
  rw [if_neg g11] at hh
  by_cases g12 : s = "?array<>"
  case pos =>
    rw [if_pos g12] at hh
    cases hh
    exact ⟨by decide, by decide⟩
  case neg =>
  rw [if_neg g12] at hh
  by_cases g13 : s = "?array<?number>"
  case pos =>
    rw [if_pos g13] at hh
    cases hh
    exact ⟨by decide, by decide⟩
  case neg =>
  rw [if_neg g13] at hh
  by_cases g14 : s = "?array<?string>"
  case pos =>
    rw [if_pos g14] at hh
    cases hh
    exact ⟨by decide, by decide⟩
  case neg =>
  rw [if_neg g14] at hh
  by_cases g15 : s = "?array<?date>"
  case pos =>
    rw [if_pos g15] at hh
    cases hh
    exact ⟨by decide, by decide⟩
  case neg =>
  rw [if_neg g15] at hh
  by_cases g16 : s = "?array<?objectId>"
  case pos =>
    rw [if_pos g16] at hh
    cases hh
    exact ⟨by decide, by decide⟩
  case neg =>
  rw [if_neg g16] at hh
  by_cases g17 : s = "?array<?bool>"
  case pos =>
    rw [if_pos g17] at hh
    cases hh
    exact ⟨by decide, by decide⟩
  case neg =>
  rw [if_neg g17] at hh
  by_cases g18 : s = "?array<?null>"
  case pos =>
    rw [if_pos g18] at hh
    cases hh
    exact ⟨by decide, by decide⟩
  case neg =>
  rw [if_neg g18] at hh
  by_cases g19 : s = "?array<?object>"
  case pos =>
    rw [if_pos g19] at hh
    cases hh
    exact ⟨by decide, by decide⟩
  case neg =>
  rw [if_neg g19] at hh
  by_cases g20 : s = "?array<?binData>"
  case pos =>
    rw [if_pos g20] at hh
    cases hh
    exact ⟨by decide, by decide⟩
  case neg =>
  rw [if_neg g20] at hh
  by_cases g21 : s = "?array<?timestamp>"
  case pos =>
    rw [if_pos g21] at hh
    cases hh
    exact ⟨by decide, by decide⟩
  case neg =>
  rw [if_neg g21] at hh
  by_cases g22 : s = "?array<?minKey>"
  case pos =>
    rw [if_pos g22] at hh
    cases hh
    exact ⟨by decide, by decide⟩
  case neg =>
  rw [if_neg g22] at hh
  by_cases g23 : s = "?array<?maxKey>"
  case pos =>
    rw [if_pos g23] at hh
    cases hh
    exact ⟨by decide, by decide⟩
  case neg =>
  rw [if_neg g23] at hh
  by_cases g24 : s = "?array<?array>"
  case pos =>
    rw [if_pos g24] at hh
    cases hh
    exact ⟨by decide, by decide⟩
  case neg =>
  rw [if_neg g24] at hh
  exact Option.noConfusion hh

/-- The field-value dispatch of create_representative_query agrees with
the table form of the placeholder grammar. -/
theorem crqValue_eq : ∀ v, MF.crqValue v = fieldRepSpec v := by
  intro v
  cases v with
  | str s => exact crqValue_eq_str s
  | doc d => rfl
  | arr l => rfl
  | null => rfl
  | bool b => rfl
  | int n => rfl

/-- Entry loop of create_representative_query in table form. -/
theorem crqEntries_eq : ∀ d : SDoc,
    MF.crqEntries d = sdoc ((toPairsD d).map fun p => (p.1, fieldRepSpec p.2))
  | .nil => rfl
  | .cons k v tl => by
    show SDoc.cons k (MF.crqValue v) (MF.crqEntries tl) = _
    rw [crqValue_eq v, crqEntries_eq tl]
    rfl

/-- Element loop of create_representative_query in map form. -/
theorem crqItems_eq : ∀ l : SList,
    MF.crqItems l = slist ((toListS l).map MF.create_representative_query)
  | .nil => rfl
  | .cons v tl => by
    show SList.cons (MF.create_representative_query v) (MF.crqItems tl) = _
    rw [crqItems_eq tl]
    rfl

mutual

/-- Idempotence of create_representative_query on values. -/
theorem crq_idem : ∀ v,
    MF.create_representative_query (MF.create_representative_query v) =
      MF.create_representative_query v
  | .doc d => by
    show SVal.doc (MF.crqEntries (MF.crqEntries d)) = SVal.doc (MF.crqEntries d)
    rw [crqEntries_idem d]
  | .arr l => by
    show SVal.arr (MF.crqItems (MF.crqItems l)) = SVal.arr (MF.crqItems l)
    rw [crqItems_idem l]
  | .null => rfl
  | .bool b => rfl
  | .int n => rfl
  | .str s => rfl

/-- Idempotence of the entry loop of create_representative_query. -/
theorem crqEntries_idem : ∀ d, MF.crqEntries (MF.crqEntries d) = MF.crqEntries d
  | .nil => rfl
  | .cons k v tl => by
    show SDoc.cons k (MF.crqValue (MF.crqValue v)) (MF.crqEntries (MF.crqEntries tl)) =
      SDoc.cons k (MF.crqValue v) (MF.crqEntries tl)
    rw [crqValue_idem v, crqEntries_idem tl]

/-- Idempotence of the field-value dispatch of
create_representative_query. -/
theorem crqValue_idem : ∀ v, MF.crqValue (MF.crqValue v) = MF.crqValue v
  | .str s => by
    by_cases hq : startsQ s = true
    · rcases hrep : placeholderRep s with _ | c
      · have h1 : MF.crqValue (.str s) = .str s := by
          rw [crqValue_eq]
          simp [fieldRepSpec, hq, hrep]
        rw [h1, h1]
      · have h1 : MF.crqValue (.str s) = c := by
          rw [crqValue_eq]
          simp [fieldRepSpec, hq, hrep]
        rw [h1]
        exact (placeholderRep_fix s c hrep).1
    · have h1 : MF.crqValue (.str s) = .str s := by
        rw [crqValue_eq]
        simp [fieldRepSpec, hq]
      rw [h1, h1]
  | .doc d => by
    show SVal.doc (MF.crqEntries (MF.crqEntries d)) = SVal.doc (MF.crqEntries d)
    rw [crqEntries_idem d]
  | .arr l => by
    show SVal.arr (MF.crqItems (MF.crqItems l)) = SVal.arr (MF.crqItems l)
    rw [crqItems_idem l]
  | .null => rfl
  | .bool b => rfl
  | .int n => rfl

/-- Idempotence of the element loop of create_representative_query. -/
theorem crqItems_idem : ∀ l, MF.crqItems (MF.crqItems l) = MF.crqItems l
  | .nil => rfl
  | .cons v tl => by
    show SList.cons
        (MF.create_representative_query (MF.create_representative_query v))
        (MF.crqItems (MF.crqItems tl)) =
      SList.cons (MF.create_representative_query v) (MF.crqItems tl)
    rw [crq_idem v, crqItems_idem tl]

end

/-- Claim C3, counterexample: a placeholder occurring as a sequence
element is not replaced (the list branch recurses without the
placeholder dispatch), and the token array of array, which lies outside
the documented grammar, is nevertheless replaced rather than passed
through. -/
theorem C3_counterexample :
    MF.create_representative_query (.arr (.cons (.str "?number") .nil)) =
        .arr (.cons (.str "?number") .nil)
  ∧ MF.create_representative_query (.arr (.cons (.str "?number") .nil)) ≠
        .arr (.cons (.int 1) .nil)
  ∧ MF.create_representative_query (.doc (.cons "k" (.str "?array<?array>") .nil)) =
        .doc (.cons "k" (.arr (.cons (.arr (.cons (.str "a") .nil)) .nil)) .nil) := by
  refine ⟨by decide, by decide, by decide⟩

/-- Claim C3, amended: create_representative_query replaces a
placeholder only where it occurs as a document field value, following
the grammar table extended with the token array of array; every
placeholder outside that table passes through unchanged; a sequence
maps the builder over its elements without the placeholder dispatch, so
placeholder elements and a placeholder root value pass through
unchanged; documents and sequences are otherwise recursed through
unchanged in shape. -/
theorem C3_rep_builder_amended :
    (∀ d : SDoc, MF.create_representative_query (.doc d) =
        .doc (sdoc ((toPairsD d).map fun p => (p.1, fieldRepSpec p.2))))
  ∧ (∀ l : SList, MF.create_representative_query (.arr l) =
        .arr (slist ((toListS l).map MF.create_representative_query)))
  ∧ (∀ v : SVal, (∀ d, v ≠ .doc d) → (∀ l, v ≠ .arr l) →
        MF.create_representative_query v = v) := by
  refine ⟨?_, ?_, ?_⟩
  · intro d
    show SVal.doc (MF.crqEntries d) = _
    rw [crqEntries_eq d]
  · intro l
    show SVal.arr (MF.crqItems l) = _
    rw [crqItems_eq l]
  · intro v hd hl
    cases v with
    | doc d => exact absurd rfl (hd d)
    | arr l => exact absurd rfl (hl l)
    | null => rfl
    | bool b => rfl
    | int n => rfl
    | str s => rfl

/-- Claim C3 amended, witness: the builder replaces a grammar
placeholder in document-field position and passes a placeholder root
value through unchanged. -/
theorem C3_rep_builder_amended_witness :
    MF.create_representative_query (.doc (.cons "a" (.str "?number") .nil)) =
        .doc (.cons "a" (.int 1) .nil)
  ∧ MF.create_representative_query (.str "?number") = .str "?number" := by
  constructor
  · have h := C3_rep_builder_amended.1 (.cons "a" (.str "?number") .nil)
    rw [h]
    decide
  · exact C3_rep_builder_amended.2.2 (.str "?number")
      (fun _ h => SVal.noConfusion h) (fun _ h => SVal.noConfusion h)

/-- Claim C7: create_representative_query is idempotent on its own
output; the second application is the identity on the result of the
first. -/
theorem C7_rep_builder_idempotent : ∀ v : SVal,
    MF.create_representative_query (MF.create_representative_query v) =
      MF.create_representative_query v :=
  crq_idem

/-- Order relation under which a pair may precede another in a
key-sorted list: the second key is not strictly below the first. -/
def keyLe {α : Type} (p q : String × α) : Prop := strLtB q.1 p.1 = false

/-- Asymmetry of the code-point order. -/
theorem listLtC_asymm : ∀ a b, listLtC a b = true → listLtC b a = false
  | [], [], h => by simp [listLtC] at h
  | [], _ :: _, _ => by simp [listLtC]
  | _ :: _, [], h => by simp [listLtC] at h
  | x :: xs, y :: ys, h => by
    rw [listLtC] at h ⊢
    by_cases h1 : x.toNat < y.toNat
    · rw [if_neg (by omega : ¬y.toNat < x.toNat), if_pos h1]
    · rw [if_neg h1] at h
      by_cases h2 : y.toNat < x.toNat
      · rw [if_pos h2] at h
        exact absurd h (by simp)
      · rw [if_neg h2] at h
        rw [if_neg h2, if_neg h1]
        exact listLtC_asymm xs ys h

/-- Transitivity of the complement of the code-point order. -/
theorem listLtC_false_trans : ∀ a b c,
    listLtC a b = false → listLtC b c = false → listLtC a c = false
  | a, b, [] => by
    intro h1 h2
    cases a <;> simp [listLtC]
  | [], b, z :: zs => by
    intro h1 h2
    cases b with
    | nil => simp [listLtC] at h2
    | cons y ys => simp [listLtC] at h1
  | x :: xs, b, z :: zs => by
    intro h1 h2
    cases b with
    | nil => simp [listLtC] at h2
    | cons y ys =>
      rw [listLtC] at h1 h2 ⊢
      by_cases e1 : x.toNat < y.toNat
      · rw [if_pos e1] at h1
        exact absurd h1 (by simp)
      · rw [if_neg e1] at h1
        by_cases e2 : y.toNat < z.toNat
        · rw [if_pos e2] at h2
          exact absurd h2 (by simp)
        · rw [if_neg e2] at h2
          by_cases e3 : x.toNat < z.toNat
          · omega
          · rw [if_neg e3]
            by_cases e4 : z.toNat < x.toNat
            · rw [if_pos e4]
            · rw [if_neg e4]
              by_cases e5 : y.toNat < x.toNat
              · omega
              · rw [if_neg e5] at h1
                by_cases e6 : z.toNat < y.toNat
                · omega
                · rw [if_neg e6] at h2
                  exact listLtC_false_trans xs ys zs h1 h2

/-- Members of a stable insertion. -/
theorem mem_insByKey {α : Type} (p x : String × α) : ∀ l, x ∈ insByKey p l ↔ x = p ∨ x ∈ l := by
  intro l
  induction l with
  | nil => simp [insByKey]
  | cons q qs ih =>
    by_cases h : strLtB q.1 p.1 = true
    · simp only [insByKey, if_pos h, List.mem_cons, ih]
      tauto
    · simp only [insByKey, if_neg h, List.mem_cons]
      try tauto

/-- Stable insertion preserves key-sortedness. -/
theorem insByKey_sorted {α : Type} (p : String × α) : ∀ l,
    List.Pairwise keyLe l → List.Pairwise keyLe (insByKey p l) := by
  intro l
  induction l with
  | nil => intro _; simp [insByKey, List.Pairwise]
  | cons q qs ih =>
    intro hs
    rcases List.pairwise_cons.mp hs with ⟨hq, hqs⟩
    by_cases h : strLtB q.1 p.1 = true
    · rw [insByKey, if_pos h]
      refine List.pairwise_cons.mpr ⟨?_, ih hqs⟩
      intro x hx
      rcases (mem_insByKey p x qs).mp hx with rfl | hmem
      · exact listLtC_asymm _ _ h
      · exact hq x hmem
    · rw [insByKey, if_neg h]
      refine List.pairwise_cons.mpr ⟨?_, hs⟩
      intro x hx
      have hfalse : strLtB q.1 p.1 = false := by simpa using h
      rcases List.mem_cons.mp hx with rfl | hmem
      · exact hfalse
      · exact listLtC_false_trans _ _ _ (hq x hmem) hfalse

/-- Stable sorting by key produces a key-sorted list. -/
theorem sortByKey_sorted {α : Type} : ∀ l : List (String × α), List.Pairwise keyLe (sortByKey l)
  | [] => by simp [sortByKey]
  | p :: ps => insByKey_sorted p _ (sortByKey_sorted ps)

/-- Stable sorting is the identity on a key-sorted list. -/
theorem sortByKey_eq_self {α : Type} : ∀ l : List (String × α),
    List.Pairwise keyLe l → sortByKey l = l := by
  intro l
  induction l with
  | nil => intro _; rfl
  | cons p ps ih =>
    intro hs
    rcases List.pairwise_cons.mp hs with ⟨hp, hps⟩
    rw [sortByKey, ih hps]
    cases ps with
    | nil => rfl
    | cons q qs =>
      have hk : strLtB q.1 p.1 = false := hp q (List.mem_cons_self q qs)
      rw [insByKey, if_neg (by simp [hk])]

/-- Stable sorting by key is idempotent. -/
theorem sortByKey_idem {α : Type} (l : List (String × α)) :
    sortByKey (sortByKey l) = sortByKey l :=
  sortByKey_eq_self _ (sortByKey_sorted l)

/-- Stable insertion commutes with a key-preserving value map. -/
theorem insByKey_map {α β : Type} (f : α → β) (p : String × α) : ∀ l,
    insByKey (p.1, f p.2) (l.map fun q => (q.1, f q.2)) =
      (insByKey p l).map fun q => (q.1, f q.2) := by
  intro l
  induction l with
  | nil => rfl
  | cons q qs ih =>
    by_cases h : strLtB q.1 p.1 = true
    · simp only [List.map_cons, insByKey, if_pos h, ih]
    · simp only [List.map_cons, insByKey, if_neg h]

/-- Stable sorting commutes with a key-preserving value map. -/
theorem sortByKey_map {α β : Type} (f : α → β) : ∀ l : List (String × α),
    sortByKey (l.map fun q => (q.1, f q.2)) = (sortByKey l).map fun q => (q.1, f q.2) := by
  intro l
  induction l with
  | nil => rfl
  | cons p ps ih =>
    simp only [List.map_cons, sortByKey, ih]
    exact insByKey_map f p (sortByKey ps)

/-- Hash serialization of a rebuilt pair list. -/
theorem hashEntries_sdoc : ∀ ps : List (String × SVal),
    MF.hashEntries (sdoc ps) = ps.map fun p => (p.1, MF.hashElement p.2)
  | [] => rfl
  | p :: ps => by
    show (p.1, MF.hashElement p.2) :: MF.hashEntries (sdoc ps) = _
    rw [hashEntries_sdoc ps]
    rfl

/-- Erased entries in map form. -/
theorem typeEraseEntries_eq : ∀ d : SDoc,
    typeEraseEntries d = (toPairsD d).map fun p => (p.1, typeErase p.2)
  | .nil => rfl
  | .cons k v tl => by
    show (k, typeErase v) :: typeEraseEntries tl = _
    rw [typeEraseEntries_eq tl]
    rfl

mutual

/-- Serialization of an already erased shape: strings verbatim,
documents as sorted JSON objects, sequences as JSON arrays.  On the
image of type erasure every scalar is a string, and the remaining
scalar branches mirror the hash serialization defaults. -/
def serializeErased : SVal → String
  | .doc d => jsonObjDump (sortByKey (serializeErasedEntries d))
  | .arr l => jsonArrDump (serializeErasedItems l)
  | .str s => s
  | .int _ => "int"
  | .bool _ => "bool"
  | .null => "NoneType"

/-- Entry serializations of an erased document. -/
def serializeErasedEntries : SDoc → List (String × String)
  | .nil => []
  | .cons k v tl => (k, serializeErased v) :: serializeErasedEntries tl

/-- Element serializations of an erased sequence. -/
def serializeErasedItems : SList → List String
  | .nil => []
  | .cons v tl => serializeErased v :: serializeErasedItems tl

end

/-- Serialized entries of a rebuilt pair list. -/
theorem serializeErasedEntries_sdoc : ∀ ps : List (String × SVal),
    serializeErasedEntries (sdoc ps) = ps.map fun p => (p.1, serializeErased p.2)
  | [] => rfl
  | p :: ps => by
    show (p.1, serializeErased p.2) :: serializeErasedEntries (sdoc ps) = _
    rw [serializeErasedEntries_sdoc ps]
    rfl

mutual

/-- The hash serialization factors through type erasure. -/
theorem hashElement_factor : ∀ v, MF.hashElement v = serializeErased (typeErase v)
  | .doc d => by
    show jsonObjDump (sortByKey (MF.hashEntries d)) =
      jsonObjDump (sortByKey (serializeErasedEntries (sdoc (sortByKey (typeEraseEntries d)))))
    rw [serializeErasedEntries_sdoc, typeEraseEntries_eq d, ← sortByKey_map, sortByKey_idem,
      List.map_map, hashEntriesFactor d]
  | .arr l => by
    show jsonArrDump (MF.hashItems l) = jsonArrDump (serializeErasedItems (typeEraseItems l))
    rw [hashItemsFactor l]
  | .str s => by
    show (if startsQ s then s else "str") = serializeErased (if startsQ s then SVal.str s else SVal.str "str")
    by_cases h : startsQ s = true
    · rw [if_pos h, if_pos h]
      rfl
    · rw [if_neg h, if_neg h]
      rfl
  | .int n => rfl
  | .bool b => rfl
  | .null => rfl

/-- Entry form of the factorization. -/
theorem hashEntriesFactor : ∀ d : SDoc,
    (toPairsD d).map ((fun q => (q.1, serializeErased q.2)) ∘ fun p => (p.1, typeErase p.2)) =
      MF.hashEntries d
  | .nil => rfl
  | .cons k v tl => by
    show (k, serializeErased (typeErase v)) :: _ = (k, MF.hashElement v) :: MF.hashEntries tl
    rw [← hashElement_factor v, hashEntriesFactor tl]

/-- Element form of the factorization. -/
theorem hashItemsFactor : ∀ l : SList,
    MF.hashItems l = serializeErasedItems (typeEraseItems l)
  | .nil => rfl
  | .cons v tl => by
    show MF.hashElement v :: MF.hashItems tl = serializeErased (typeErase v) :: _
    rw [← hashElement_factor v, hashItemsFactor tl]

end

/-- Claim C4: the shape hash is a function of the type-erased skeleton
alone (documents in sorted key order, placeholders verbatim, every
other scalar replaced by its runtime type name); replacing a
non-placeholder scalar by another of the same runtime type leaves the
digest unchanged, whereas renaming a document field changes it. -/
theorem C4_hash_type_erasure :
    (∀ v1 v2 : SVal, typeErase v1 = typeErase v2 →
        MF.hash_query_shape v1 = MF.hash_query_shape v2)
  ∧ (∀ (k : String) (d : SDoc) (n m : Int),
        MF.hash_query_shape (.doc (.cons k (.int n) d)) =
          MF.hash_query_shape (.doc (.cons k (.int m) d)))
  ∧ MF.hash_query_shape (.doc (.cons "a" (.int 5) .nil)) ≠
      MF.hash_query_shape (.doc (.cons "b" (.int 5) .nil)) := by
  have key : ∀ v1 v2 : SVal, typeErase v1 = typeErase v2 →
      MF.hash_query_shape v1 = MF.hash_query_shape v2 := by
    intro v1 v2 h
    unfold MF.hash_query_shape
    rw [hashElement_factor v1, hashElement_factor v2, h]
  refine ⟨key, ?_, by decide⟩
  intro k d n m
  exact key _ _ rfl

/-- Claim C4, witness: two documents differing only in the concrete
integer behind one field erase identically and hash identically. -/
theorem C4_hash_type_erasure_witness :
    MF.hash_query_shape (.doc (.cons "a" (.int 5) .nil)) =
      MF.hash_query_shape (.doc (.cons "a" (.int 7) .nil)) :=
  C4_hash_type_erasure.1 _ _ (by decide)

mutual

/-- The transform of transform_to_mongosh raises exactly on the inputs
recognized by the bad extended-JSON predicate. -/
theorem mshTransform_none : ∀ v, (MF.mshTransform v = none) ↔ (hasBadExt v = true)
  | .doc d => by
    rcases h1 : lookupD d "$date" with _ | v1
    · rcases h2 : lookupD d "$oid" with _ | v2
      · rcases h3 : lookupD d "$binary" with _ | bv
        · rcases h4 : lookupD d "$timestamp" with _ | tv
          · rcases h5 : lookupD d "$minKey" with _ | mv
            · rcases h6 : lookupD d "$maxKey" with _ | xv
              · simp only [MF.mshTransform, hasBadExt, h1, h2, h3, h4, h5, h6]
                rcases hd : MF.mshTransformDoc d with _ | entries
                · simp [(mshTransformDoc_none d).mp hd]
                · have hbe : ¬hasBadExtDoc d = true := fun hbad => by
                    rw [(mshTransformDoc_none d).mpr hbad] at hd
                    exact Option.noConfusion hd
                  simp [hbe]
              · simp [MF.mshTransform, hasBadExt, h1, h2, h3, h4, h5, h6]
            · simp [MF.mshTransform, hasBadExt, h1, h2, h3, h4, h5]
          · simp only [MF.mshTransform, hasBadExt, h1, h2, h3, h4]
            cases tv with
            | doc td =>
              rcases ht : lookupD td "t" with _ | tval
              · simp [goodTimestamp, hasKeyD, ht]
              · rcases hi : lookupD td "i" with _ | ival
                · simp [goodTimestamp, hasKeyD, ht, hi]
                · simp [goodTimestamp, hasKeyD, ht, hi]
            | null => simp [goodTimestamp]
            | bool b => simp [goodTimestamp]
            | int n => simp [goodTimestamp]
            | str s => simp [goodTimestamp]
            | arr l => simp [goodTimestamp]
        · simp only [MF.mshTransform, hasBadExt, h1, h2, h3]
          cases bv with
          | doc bd =>
            rcases hst : lookupD bd "subType" with _ | stv
            · simp [goodBinary, hst]
            · cases stv with
              | str st =>
                rcases hint : pyIntHex st with _ | n
                · simp [goodBinary, hst, hint]
                · rcases hb64 : lookupD bd "base64" with _ | b64
                  · simp [goodBinary, hst, hint, hasKeyD, hb64]
                  · simp [goodBinary, hst, hint, hasKeyD, hb64]
              | null => simp [goodBinary, hst]
              | bool b => simp [goodBinary, hst]
              | int n => simp [goodBinary, hst]
              | arr l => simp [goodBinary, hst]
              | doc dd => simp [goodBinary, hst]
          | null => simp [goodBinary]
          | bool b => simp [goodBinary]
          | int n => simp [goodBinary]
          | str s => simp [goodBinary]
          | arr l => simp [goodBinary]
      · simp [MF.mshTransform, hasBadExt, h1, h2]
    · simp [MF.mshTransform, hasBadExt, h1]
  | .arr l => by
    simp only [MF.mshTransform, hasBadExt]
    rcases hl : MF.mshTransformList l with _ | items
    · simp [(mshTransformList_none l).mp hl]
    · have hbe : ¬hasBadExtList l = true := fun hbad => by
        rw [(mshTransformList_none l).mpr hbad] at hl
        exact Option.noConfusion hl
      simp [hbe]
  | .null => by simp [MF.mshTransform, hasBadExt]
  | .bool b => by simp [MF.mshTransform, hasBadExt]
  | .int n => by simp [MF.mshTransform, hasBadExt]
  | .str s => by simp [MF.mshTransform, hasBadExt]

/-- Entry form: the dict loop of the transform raises exactly when some
entry value is recognized as bad. -/
theorem mshTransformDoc_none : ∀ d, (MF.mshTransformDoc d = none) ↔ (hasBadExtDoc d = true)
  | .nil => by simp [MF.mshTransformDoc, hasBadExtDoc]
  | .cons k v tl => by
    simp only [MF.mshTransformDoc, hasBadExtDoc]
    rcases hv : MF.mshTransform v with _ | w
    · simp [(mshTransform_none v).mp hv]
    · have hbv : ¬hasBadExt v = true := fun hbad => by
        rw [(mshTransform_none v).mpr hbad] at hv
        exact Option.noConfusion hv
      rcases htl : MF.mshTransformDoc tl with _ | rest
      · simp [hbv, (mshTransformDoc_none tl).mp htl]
      · have hbtl : ¬hasBadExtDoc tl = true := fun hbad => by
          rw [(mshTransformDoc_none tl).mpr hbad] at htl
          exact Option.noConfusion htl
        simp [hbv, hbtl]

/-- Element form: the list loop of the transform raises exactly when
some element is recognized as bad. -/
theorem mshTransformList_none : ∀ l, (MF.mshTransformList l = none) ↔ (hasBadExtList l = true)
  | .nil => by simp [MF.mshTransformList, hasBadExtList]
  | .cons v tl => by
    simp only [MF.mshTransformList, hasBadExtList]
    rcases hv : MF.mshTransform v with _ | w
    · simp [(mshTransform_none v).mp hv]
    · have hbv : ¬hasBadExt v = true := fun hbad => by
        rw [(mshTransform_none v).mpr hbad] at hv
        exact Option.noConfusion hv
      rcases htl : MF.mshTransformList tl with _ | rest
      · simp [hbv, (mshTransformList_none tl).mp htl]
      · have hbtl : ¬hasBadExtList tl = true := fun hbad => by
          rw [(mshTransformList_none tl).mpr hbad] at htl
          exact Option.noConfusion htl
        simp [hbv, hbtl]

end

/-- Claim C8, counterexample: transform_to_mongosh does have a runtime
failure path; on a document whose binary key maps to a value of
unexpected shape it raises and the decorated wrapper returns the None
error marker. -/
theorem C8_counterexample :
    MF.transform_to_mongosh (.doc (.cons "$binary" (.int 1) .nil)) = none := by
  decide

/-- A binary leaf accepted with its subType conversion is in particular
structurally well-formed. -/
theorem goodBinary_imp_struct (bv : SVal) (h : goodBinary bv = true) :
    goodBinaryStruct bv = true := by
  rcases bv with _ | b | n | s | l | bd <;> simp [goodBinary] at h
  rcases hst : lookupD bd "subType" with _ | sv
  · simp [goodBinary, hst] at h
  · rcases sv with _ | b2 | n2 | s2 | l2 | d2 <;> simp [goodBinary, hst] at h
    simp [goodBinaryStruct, hst, h.2]

mutual

/-- A structurally ill-formed selected leaf is in particular ill-formed
for the full recognizer. -/
theorem hasBadStruct_le : ∀ v : SVal, hasBadStruct v = true → hasBadExt v = true
  | .null, h => by simp [hasBadStruct] at h
  | .bool b, h => by simp [hasBadStruct] at h
  | .int n, h => by simp [hasBadStruct] at h
  | .str s, h => by simp [hasBadStruct] at h
  | .arr l, h => by
    simp only [hasBadStruct] at h
    simp only [hasBadExt]
    exact hasBadStructList_le l h
  | .doc d, h => by
    rcases h1 : lookupD d "$date" with _ | v1
    · rcases h2 : lookupD d "$oid" with _ | v2
      · rcases h3 : lookupD d "$binary" with _ | bv
        · rcases h4 : lookupD d "$timestamp" with _ | tv
          · rcases h5 : lookupD d "$minKey" with _ | v5
            · rcases h6 : lookupD d "$maxKey" with _ | v6
              · simp only [hasBadStruct, h1, h2, h3, h4, h5, h6] at h
                simp only [hasBadExt, h1, h2, h3, h4, h5, h6]
                exact hasBadStructDoc_le d h
              · simp [hasBadStruct, h1, h2, h3, h4, h5, h6] at h
            · simp [hasBadStruct, h1, h2, h3, h4, h5] at h
          · simp only [hasBadStruct, h1, h2, h3, h4] at h
            simp only [hasBadExt, h1, h2, h3, h4]
            exact h
        · simp only [hasBadStruct, h1, h2, h3] at h
          simp only [hasBadExt, h1, h2, h3]
          cases hgb : goodBinary bv
          · simp
          · rw [goodBinary_imp_struct bv hgb] at h
            exact absurd h (by simp)
      · simp [hasBadStruct, h1, h2] at h
    · simp [hasBadStruct, h1] at h

/-- Entrywise monotonicity for the default dict branch. -/
theorem hasBadStructDoc_le : ∀ d : SDoc, hasBadStructDoc d = true → hasBadExtDoc d = true
  | .nil, h => by simp [hasBadStructDoc] at h
  | .cons k v tl, h => by
    simp only [hasBadStructDoc, Bool.or_eq_true] at h
    simp only [hasBadExtDoc, Bool.or_eq_true]
    rcases h with h | h
    · exact Or.inl (hasBadStruct_le v h)
    · exact Or.inr (hasBadStructDoc_le tl h)

/-- Elementwise monotonicity for the list branch. -/
theorem hasBadStructList_le : ∀ l : SList, hasBadStructList l = true → hasBadExtList l = true
  | .nil, h => by simp [hasBadStructList] at h
  | .cons v tl, h => by
    simp only [hasBadStructList, Bool.or_eq_true] at h
    simp only [hasBadExtList, Bool.or_eq_true]
    rcases h with h | h
    · exact Or.inl (hasBadStruct_le v h)
    · exact Or.inr (hasBadStructList_le tl h)

end

/-- Claim C8, amended: hash_query_shape and stringify_for_mongosh are
total over ShapeValue (their embeddings return plain values on every
input by construction), but transform_to_mongosh is not: it returns the
None error marker on every input whose traversal selects a binary key
or a timestamp key carrying a structurally ill-formed value, and
returns a value on every input all of whose selected binary and
timestamp leaves are well-formed with an accepted subType string; the
boundary case of a well-shaped subType string rejected by the ASCII
fragment of int with base 16 is left uncharacterized. -/
theorem C8_transform_totality_amended :
    (∀ v : SVal, hasBadStruct v = true → MF.transform_to_mongosh v = none)
  ∧ (∀ v : SVal, hasBadExt v = false → (MF.transform_to_mongosh v).isSome = true) := by
  constructor
  · intro v h
    show MF.mshTransform v = none
    exact (mshTransform_none v).mpr (hasBadStruct_le v h)
  · intro v h
    rcases hm : MF.mshTransform v with _ | w
    · rw [(mshTransform_none v).mp hm] at h
      exact Bool.noConfusion h
    · simp [MF.transform_to_mongosh, hm]

/-- Claim C8 amended, witness: the structural-failure half applied to a
binary key mapping to a number, and the success half applied to a
placeholder document. -/
theorem C8_transform_totality_amended_witness :
    MF.transform_to_mongosh (.doc (.cons "$binary" (.int 2) .nil)) = none
  ∧ (MF.transform_to_mongosh (.doc (.cons "a" (.str "?number") .nil))).isSome = true :=
  ⟨C8_transform_totality_amended.1 (.doc (.cons "$binary" (.int 2) .nil)) (by decide),
   C8_transform_totality_amended.2 (.doc (.cons "a" (.str "?number") .nil)) (by decide)⟩

/-- The string membership test agrees with list membership. -/
theorem memStrB_iff (x : String) : ∀ l : List String, memStrB x l = true ↔ x ∈ l := by
  intro l
  induction l with
  | nil => simp [memStrB]
  | cons y ys ih =>
    simp only [memStrB, List.mem_cons, Bool.or_eq_true, decide_eq_true_eq, ih]
    constructor
    · rintro (rfl | h)
      · exact Or.inl rfl
      · exact Or.inr h
    · rintro (rfl | h)
      · exact Or.inl rfl
      · exact Or.inr h

/-- The string membership test distributes over append. -/
theorem memStrB_append (x : String) : ∀ a b : List String,
    memStrB x (a ++ b) = (memStrB x a || memStrB x b) := by
  intro a b
  induction a with
  | nil => simp [memStrB]
  | cons y ys ih => simp [memStrB, ih, Bool.or_assoc]

/-- First-occurrence reduction commutes with dropping one key. -/
theorem firstOccKeys_filter (k : String) : ∀ L : List (String × SVal),
    firstOccKeys (L.filter fun p => decide (p.1 ≠ k)) =
      (firstOccKeys L).filter fun p => decide (p.1 ≠ k) := by
  intro L
  induction L with
  | nil => rfl
  | cons q L ih =>
    by_cases hq : q.1 = k
    · have h1 : (decide (q.1 ≠ k)) = false := by simp [hq]
      rw [List.filter_cons, if_neg (by simp [h1]), ih, firstOccKeys, List.filter_cons,
        if_neg (by simp [h1]), List.filter_filter]
      apply (List.filter_congr ?_).symm
      intro p _
      rw [hq]
      cases hpk : decide (p.1 ≠ k) <;> simp [hpk]
    · have h1 : (decide (q.1 ≠ k)) = true := by simp [hq]
      rw [List.filter_cons, if_pos (by simp [h1])]
      show firstOccKeys (q :: List.filter _ L) = _
      rw [firstOccKeys, ih, firstOccKeys, List.filter_cons, if_pos (by simp [h1]),
        List.filter_filter, List.filter_filter]
      refine congrArg (List.cons q) (List.filter_congr ?_)
      intro p _
      cases hpk : decide (p.1 ≠ k) <;> cases hpq : decide (p.1 ≠ q.1) <;> simp [hpk, hpq]

/-- Dropping the fields seen in one more singleton list is dropping one
key from the already filtered list. -/
theorem dropSeen_snoc (fld : String) (e r : List String) : ∀ ps : List (String × SVal),
    (ps.filter fun p => !(memStrB p.1 (e ++ [fld]) || memStrB p.1 r)) =
      ((ps.filter fun p => !(memStrB p.1 e || memStrB p.1 r)).filter fun p =>
        decide (p.1 ≠ fld)) := by
  intro ps
  rw [List.filter_filter]
  apply List.filter_congr
  intro p _
  by_cases hp : p.1 = fld
  · simp [memStrB_append, memStrB, hp]
  · have h1 : decide (fld = p.1) = false := by
      simp
      exact fun h => hp h.symm
    simp [memStrB_append, memStrB, h1, hp]

/-- Dropping the seen fields by the range side is symmetric. -/
theorem dropSeen_snoc_r (fld : String) (e r : List String) : ∀ ps : List (String × SVal),
    (ps.filter fun p => !(memStrB p.1 e || memStrB p.1 (r ++ [fld]))) =
      ((ps.filter fun p => !(memStrB p.1 e || memStrB p.1 r)).filter fun p =>
        decide (p.1 ≠ fld)) := by
  intro ps
  rw [List.filter_filter]
  apply List.filter_congr
  intro p _
  by_cases hp : p.1 = fld
  · simp [memStrB_append, memStrB, hp]
  · have h1 : decide (fld = p.1) = false := by
      simp
      exact fun h => hp h.symm
    simp [memStrB_append, memStrB, h1, hp]

/-- Characterization of the classification loop of suggest_index: the
final equality and range lists extend the accumulators with the
first-seen unseen fields, split by their tag. -/
theorem esrLoop_spec : ∀ (ps : List (String × SVal)) (e r : List String),
    MF.esrLoop ps e r =
      (e ++ (((firstOccKeys (ps.filter fun p => !(memStrB p.1 e || memStrB p.1 r))).filter
          fun p => decide (p.2 = SVal.str "$eq")).map Prod.fst),
       r ++ (((firstOccKeys (ps.filter fun p => !(memStrB p.1 e || memStrB p.1 r))).filter
          fun p => decide (¬p.2 = SVal.str "$eq")).map Prod.fst)) := by
  intro ps
  induction ps with
  | nil => intro e r; simp [MF.esrLoop, firstOccKeys]
  | cons hd rest ih =>
    intro e r
    rcases hd with ⟨fld, v⟩
    by_cases hseen : (memStrB fld e || memStrB fld r) = true
    · rw [MF.esrLoop, if_pos hseen, ih e r, List.filter_cons, if_neg (by simp [hseen])]
    · have hseen' : (memStrB fld e || memStrB fld r) = false := by simpa using hseen
      by_cases hv : v = SVal.str "$eq"
      · rw [MF.esrLoop, if_neg (by simp [hseen']), if_pos hv, ih (e ++ [fld]) r]
        rw [List.filter_cons, if_pos (by simp [hseen'])]
        rw [dropSeen_snoc fld e r rest, firstOccKeys_filter fld, firstOccKeys]
        rw [List.filter_cons, if_pos (by simp [hv]), List.filter_cons, if_neg (by simp [hv])]
        simp only [List.map_cons, List.filter_filter, List.append_assoc, List.singleton_append]
      · rw [MF.esrLoop, if_neg (by simp [hseen']), if_neg hv, ih e (r ++ [fld])]
        rw [List.filter_cons, if_pos (by simp [hseen'])]
        rw [dropSeen_snoc_r fld e r rest, firstOccKeys_filter fld, firstOccKeys]
        rw [List.filter_cons, if_neg (by simp [hv]), List.filter_cons, if_pos (by simp [hv])]
        simp only [List.map_cons, List.filter_filter, List.append_assoc, List.singleton_append]

/-- The keys surviving first-occurrence reduction are distinct. -/
theorem firstOccKeys_keys_nodup : ∀ L : List (String × SVal),
    ((firstOccKeys L).map Prod.fst).Nodup := by
  intro L
  induction L with
  | nil => simp [firstOccKeys]
  | cons a L ih =>
    rw [firstOccKeys, List.map_cons]
    refine List.nodup_cons.mpr ⟨?_, ?_⟩
    · intro hmem
      rcases List.mem_map.mp hmem with ⟨p, hp, hfst⟩
      rcases List.mem_filter.mp hp with ⟨_, hne⟩
      simp at hne
      exact hne hfst
    · exact List.Nodup.sublist (List.Sublist.map _ (List.filter_sublist _)) ih

/-- With distinct keys, the key determines the pair. -/
theorem nodup_keys_inj : ∀ (L : List (String × SVal)) (p q : String × SVal),
    (L.map Prod.fst).Nodup → p ∈ L → q ∈ L → p.1 = q.1 → p = q := by
  intro L
  induction L with
  | nil =>
    intro p q _ hp
    simp at hp
  | cons a L ih =>
    intro p q hnd hp hq hpq
    rw [List.map_cons] at hnd
    rcases List.nodup_cons.mp hnd with ⟨hna, hnd2⟩
    rcases List.mem_cons.mp hp with rfl | hp2
    · rcases List.mem_cons.mp hq with rfl | hq2
      · rfl
      · exact absurd (by rw [hpq]; exact List.mem_map_of_mem Prod.fst hq2) hna
    · rcases List.mem_cons.mp hq with rfl | hq2
      · exact absurd (by rw [← hpq]; exact List.mem_map_of_mem Prod.fst hp2) hna
      · exact ih p q hnd2 hp2 hq2 hpq

/-- The classification loop started on empty accumulators produces the
specification-side equality and range field lists. -/
theorem esrLoop_nil_spec (f : SVal) :
    MF.esrLoop (MF.extract_fields (MF.simplify_filter f)) [] [] =
      (eqFieldsSpec f, rgFieldsSpec f) := by
  have h1 := esrLoop_spec (MF.extract_fields (MF.simplify_filter f)) [] []
  simpa only [memStrB, Bool.or_self, Bool.not_false, List.filter_true, List.nil_append,
    eqFieldsSpec, rgFieldsSpec] using h1

/-- Claim C1: suggest_index returns the mapping whose key order is the
first-seen equality fields of the simplified filter, then the sort keys
not already listed, then the first-seen range fields, each mapped to
the ascending direction one; with distinct sort keys no field appears
twice; and the two concrete examples of the specification hold. -/
theorem C1_suggest_index_esr :
    (∀ (f sort : SVal) (ks : List String), MF.sortKeysOrFail sort = some ks →
        MF.suggest_index f sort =
          some ((eqFieldsSpec f ++
            ks.filter (fun k => !(memStrB k (eqFieldsSpec f) || memStrB k (rgFieldsSpec f))) ++
            rgFieldsSpec f).map fun fld => (fld, (1 : Int))))
  ∧ (∀ (f sort : SVal) (ks : List String) (L : List (String × Int)),
        MF.sortKeysOrFail sort = some ks → ks.Nodup → MF.suggest_index f sort = some L →
        (L.map Prod.fst).Nodup ∧ ∀ p ∈ L, p.2 = 1)
  ∧ MF.suggest_index
      (.doc (.cons "a" (.str "?number") (.cons "b" (.doc (.cons "$gt" (.str "?number") .nil)) .nil)))
      (.doc (.cons "c" (.int 1) .nil)) = some [("a", 1), ("c", 1), ("b", 1)]
  ∧ MF.suggest_index (.doc .nil) .null = some [] := by
  have main : ∀ (f sort : SVal) (ks : List String), MF.sortKeysOrFail sort = some ks →
      MF.suggest_index f sort =
        some ((eqFieldsSpec f ++
          ks.filter (fun k => !(memStrB k (eqFieldsSpec f) || memStrB k (rgFieldsSpec f))) ++
          rgFieldsSpec f).map fun fld => (fld, (1 : Int))) := by
    intro f sort ks hks
    unfold MF.suggest_index
    simp only [esrLoop_nil_spec f, hks]
  refine ⟨main, ?_, by decide, by decide⟩
  intro f sort ks L hks hnd hL
  rw [main f sort ks hks] at hL
  cases hL
  set fo := firstOccKeys (MF.extract_fields (MF.simplify_filter f)) with hfo
  constructor
  · rw [List.map_map]
    have hid : (Prod.fst ∘ fun fld => (fld, (1 : Int))) = (id : String → String) := rfl
    rw [hid, List.map_id, List.append_assoc, List.nodup_append]
    have hfonodup := firstOccKeys_keys_nodup (MF.extract_fields (MF.simplify_filter f))
    refine ⟨?_, ?_, ?_⟩
    · exact List.Nodup.sublist (List.Sublist.map _ (List.filter_sublist _)) hfonodup
    · rw [List.nodup_append]
      refine ⟨List.Nodup.filter _ hnd, ?_, ?_⟩
      · exact List.Nodup.sublist (List.Sublist.map _ (List.filter_sublist _)) hfonodup
      · intro x hxs hxr
        rcases List.mem_filter.mp hxs with ⟨_, hcond⟩
        have : memStrB x (rgFieldsSpec f) = true := (memStrB_iff x _).mpr hxr
        simp [this] at hcond
    · intro x hxe hxsr
      rcases List.mem_append.mp hxsr with hxs | hxr
      · rcases List.mem_filter.mp hxs with ⟨_, hcond⟩
        have : memStrB x (eqFieldsSpec f) = true := (memStrB_iff x _).mpr hxe
        simp [this] at hcond
      · rcases List.mem_map.mp hxe with ⟨p, hp, hpfst⟩
        rcases List.mem_map.mp hxr with ⟨q, hq, hqfst⟩
        rcases List.mem_filter.mp hp with ⟨hpfo, hptag⟩
        rcases List.mem_filter.mp hq with ⟨hqfo, hqtag⟩
        have hpq : p = q :=
          nodup_keys_inj _ p q (firstOccKeys_keys_nodup _) hpfo hqfo (by rw [hpfst, hqfst])
        rw [hpq] at hptag
        simp at hptag hqtag
        exact hqtag hptag
  · intro p hp
    rcases List.mem_map.mp hp with ⟨x, _, rfl⟩
    rfl

/-- Traversal below one indirection layer is traversal of the wrapped
plan. -/
theorem get_stages_r_wrapper : ∀ (w : PlanWrapper) (v : SVal) (arr : List SVal),
    MF.get_stages_r (applyWrapper w v) arr = MF.get_stages_r v arr := by
  intro w v arr
  cases w <;>
    (simp only [applyWrapper]
     conv_lhs => rw [MF.get_stages_r.eq_def]
     simp [lookupD, truthy])

/-- Traversal of a linear chain prepends the stages in reverse order. -/
theorem get_stages_r_chain : ∀ (ns : List String) (n : String) (arr : List SVal),
    MF.get_stages_r (mkChain (n :: ns)) arr = ((n :: ns).reverse.map SVal.str) ++ arr := by
  intro ns
  induction ns with
  | nil =>
    intro n arr
    rw [show mkChain [n] = .doc (.cons "stage" (.str n) .nil) from rfl]
    conv_lhs => rw [MF.get_stages_r.eq_def]
    simp [lookupD, truthy]
  | cons m ms ih =>
    intro n arr
    rw [show mkChain (n :: m :: ms) =
      .doc (.cons "stage" (.str n) (.cons "inputStage" (mkChain (m :: ms)) .nil)) from rfl]
    have hih := ih m (.str n :: arr)
    conv_lhs => rw [MF.get_stages_r.eq_def]
    simp [lookupD, truthy, hih]

/-- An unrecognized plan leaves the accumulator unchanged. -/
theorem gsr_not_finds : ∀ (o : SVal) (arr : List SVal),
    findsStage o = false → MF.get_stages_r o arr = arr := by
  apply MF.get_stages_r.induct
    (fun o arr => findsStage o = false → MF.get_stages_r o arr = arr)
    (fun es arr => True)
  all_goals intros
  all_goals try trivial
  all_goals try (rename_i h
                 rw [MF.get_stages_r.eq_def]
                 rw [findsStage.eq_def] at h
                 repeat' (first | (split at h) | split)
                 all_goals simp_all)
  all_goals (exfalso; subst_vars; simp_all)

/-- Claim C2: over any linear explain-plan chain, wrapped in any
sequence of indirection layers, get_plan_stages returns the stages
deepest first and outermost last; and on any input in which the
traversal recognizes no stage structure it returns the empty sequence
rather than an error. -/
theorem C2_plan_flattener :
    (∀ (ws : List PlanWrapper) (names : List String), names ≠ [] →
        MF.get_plan_stages (ws.foldr applyWrapper (mkChain names)) =
          names.reverse.map SVal.str)
  ∧ (∀ o : SVal, findsStage o = false → MF.get_plan_stages o = []) := by
  constructor
  · intro ws names hne
    induction ws with
    | nil =>
      rcases names with _ | ⟨n, ns⟩
      · exact absurd rfl hne
      · show MF.get_stages_r (mkChain (n :: ns)) [] = _
        rw [get_stages_r_chain ns n []]
        simp
    | cons w ws ih =>
      show MF.get_stages_r (applyWrapper w (ws.foldr applyWrapper (mkChain names))) [] = _
      rw [get_stages_r_wrapper]
      exact ih
  · intro o h
    exact gsr_not_finds o [] h

/-- Claim C2, witness: a two-stage chain under a queryPlanner wrapper
flattens deepest first, and a plan without stage structure flattens to
the empty sequence. -/
theorem C2_plan_flattener_witness :
    MF.get_plan_stages ([PlanWrapper.queryPlanner].foldr applyWrapper
        (mkChain ["FETCH", "IXSCAN"])) = [SVal.str "IXSCAN", SVal.str "FETCH"]
  ∧ MF.get_plan_stages (.doc (.cons "ok" (.int 1) .nil)) = [] := by
  constructor
  · have h := C2_plan_flattener.1 [PlanWrapper.queryPlanner] ["FETCH", "IXSCAN"] (by decide)
    simpa using h
  · exact C2_plan_flattener.2 (.doc (.cons "ok" (.int 1) .nil)) (by
      rw [findsStage.eq_def]
      simp [lookupD, truthy])

/-- The two copies of get_stages_r agree on every input. -/
theorem st_gsr_eq : ∀ (o : SVal) (arr : List SVal),
    ST.get_stages_r o arr = MF.get_stages_r o arr := by
  apply MF.get_stages_r.induct
    (fun o arr => ST.get_stages_r o arr = MF.get_stages_r o arr)
    (fun es arr => ST.gsrList es arr = MF.gsrList es arr)
  all_goals intros
  all_goals try (rw [ST.gsrList.eq_def, MF.gsrList.eq_def]
                 repeat' split
                 all_goals simp_all)
  all_goals try (rw [ST.get_stages_r.eq_def, MF.get_stages_r.eq_def]
                 repeat' split
                 all_goals simp_all)
  all_goals (exfalso; subst_vars; simp_all)

mutual

/-- The two copies of simplify_filter agree on every input. -/
theorem st_simplify_eq : ∀ v, ST.simplify_filter v = MF.simplify_filter v
  | .doc d => by
    simp only [ST.simplify_filter, MF.simplify_filter, st_simplifyEntries_eq d]
  | .arr l => by
    simp only [ST.simplify_filter, MF.simplify_filter, st_simplifyItems_eq l]
  | .null => rfl
  | .bool b => rfl
  | .int n => rfl
  | .str s => rfl

/-- The two entry loops of simplify_filter agree. -/
theorem st_simplifyEntries_eq : ∀ d, ST.simplifyEntries d = MF.simplifyEntries d
  | .nil => rfl
  | .cons k v tl => by
    simp only [ST.simplifyEntries, MF.simplifyEntries, st_iterAndOr_eq v, st_simplify_eq v,
      st_simplifyEntries_eq tl]

/-- The two list loops of simplify_filter agree. -/
theorem st_simplifyItems_eq : ∀ l, ST.simplifyItems l = MF.simplifyItems l
  | .nil => rfl
  | .cons v tl => by
    simp only [ST.simplifyItems, MF.simplifyItems, st_simplify_eq v, st_simplifyItems_eq tl]

/-- The two iteration helpers of simplify_filter agree. -/
theorem st_iterAndOr_eq : ∀ v, ST.iterAndOr v = MF.iterAndOr v
  | .arr l => by
    simp only [ST.iterAndOr, MF.iterAndOr, st_simplifyItems_eq l]
  | .doc d => rfl
  | .str s => rfl
  | .null => rfl
  | .bool b => rfl
  | .int n => rfl

end

mutual

/-- The two copies of extract_fields agree on every input. -/
theorem st_extract_eq : ∀ v, ST.extract_fields v = MF.extract_fields v
  | .doc d => by
    simp only [ST.extract_fields, MF.extract_fields, st_extractEntries_eq d]
  | .arr l => by
    simp only [ST.extract_fields, MF.extract_fields, st_extractItems_eq l]
  | .null => rfl
  | .bool b => rfl
  | .int n => rfl
  | .str s => rfl

/-- The two entry loops of extract_fields agree. -/
theorem st_extractEntries_eq : ∀ d, ST.extractEntries d = MF.extractEntries d
  | .nil => rfl
  | .cons k v tl => by
    simp only [ST.extractEntries, MF.extractEntries, st_extract_eq v, st_extractEntries_eq tl]

/-- The two element loops of extract_fields agree. -/
theorem st_extractItems_eq : ∀ l, ST.extractItems l = MF.extractItems l
  | .nil => rfl
  | .cons v tl => by
    simp only [ST.extractItems, MF.extractItems, st_extract_eq v, st_extractItems_eq tl]

end

/-- The two classification loops of suggest_index agree. -/
theorem st_esrLoop_eq : ∀ (ps : List (String × SVal)) (e r : List String),
    ST.esrLoop ps e r = MF.esrLoop ps e r := by
  intro ps
  induction ps with
  | nil => intro e r; rfl
  | cons hd rest ih =>
    intro e r
    rcases hd with ⟨fld, v⟩
    rw [ST.esrLoop, MF.esrLoop]
    split_ifs <;> apply ih

/-- Claim C10: the duplicated implementations in querystats-streamlit.py
of the plan flattener and of the index suggestion chain are
extensionally equal to their namesakes in mongodb_functions.py. -/
theorem C10_duplicates_equal :
    (∀ (o : SVal) (arr : List SVal), ST.get_stages_r o arr = MF.get_stages_r o arr)
  ∧ (∀ plan : SVal, ST.get_plan_stages plan = MF.get_plan_stages plan)
  ∧ (∀ v : SVal, ST.simplify_filter v = MF.simplify_filter v)
  ∧ (∀ v : SVal, ST.extract_fields v = MF.extract_fields v)
  ∧ (∀ f sort : SVal, ST.suggest_index f sort = MF.suggest_index f sort)
  ∧ (∀ stages : List SVal, ST.has_collscan stages = MF.has_collscan stages) := by
  refine ⟨st_gsr_eq, ?_, st_simplify_eq, st_extract_eq, ?_, ?_⟩
  · intro plan
    exact st_gsr_eq plan []
  · intro f sort
    unfold ST.suggest_index MF.suggest_index
    simp only [st_simplify_eq f, st_extract_eq (MF.simplify_filter f), st_esrLoop_eq]
  · intro stages
    induction stages with
    | nil => rfl
    | cons s rest ih =>
      rw [ST.has_collscan, MF.has_collscan, ih]

/-- Claim C6, counterexample: the output description of the claim fails
when the literal command string collides with a reserved key of the
built document.  With command filter, the later filter assignment
overwrites the collection binding: setQuerySettings carries the
transformed representative under the filter key and no key at all maps
to the collection c, although the transform itself succeeded on the
empty representative.  The second conjunct shows the no-hard-failure
half of the claim standing even on a representative that makes the
transform fail internally: the decorated transform returns None as a
value and the builder emits filter null. -/
theorem C6_counterexample :
    (MF.create_rejection_filter
      (.doc (.cons "command" (.str "filter")
        (.cons "cmdNs" (.doc (.cons "db" (.str "d") (.cons "coll" (.str "c") .nil))) .nil)))
      (.doc .nil) =
      some ("db.adminCommand(\n\x7b\n    \"setQuerySettings\": \x7b\n      \"filter\": \x7b\x7d,\n      \"$db\": \"d\"\n    \x7d,\n    \"settings\": \x7b\n      \"reject\": true\n    \x7d\n  \x7d\n)")
      ∧ MF.transform_to_mongosh (.doc .nil) = some (.doc .nil))
  ∧ MF.create_rejection_filter
      (.doc (.cons "command" (.str "find")
        (.cons "cmdNs" (.doc (.cons "db" (.str "d") (.cons "coll" (.str "c") .nil))) .nil)))
      (.doc (.cons "$binary" (.int 1) .nil)) =
      some ("db.adminCommand(\n\x7b\n    \"setQuerySettings\": \x7b\n      \"find\": \"c\",\n      \"$db\": \"d\",\n      \"filter\": null\n    \x7d,\n    \"settings\": \x7b\n      \"reject\": true\n    \x7d\n  \x7d\n)") := by
  exact ⟨⟨by decide, by decide⟩, by decide⟩

/-- Claim C6, amended: for every dict query shape carrying cmdNs entries
and a string command that avoids the reserved keys of the built
document, and every representative value, create_rejection_filter
succeeds, including when the command is neither find nor aggregate, in
which case the literal command string is used, and including when the
mongosh transform fails internally, in which case its decorated wrapper
hands back None and the builder proceeds; the result wraps the
serialized document as db.adminCommand with the setQuerySettings
entries in the order command, db, pipeline when the transformed value
is a sequence and filter otherwise (filter null after a failed
transform), sort only when present and truthy on the shape, and
settings.reject true. -/
theorem C6_rejection_builder_amended :
    ∀ (q ns : SDoc) (cmd : String) (db coll rep : SVal),
      (lookupD q "command").getD (.str "Unknown") = .str cmd →
      lookupD q "cmdNs" = some (.doc ns) →
      lookupD ns "db" = some db →
      lookupD ns "coll" = some coll →
      cmd ≠ "$db" → cmd ≠ "pipeline" → cmd ≠ "filter" → cmd ≠ "sort" →
      MF.create_rejection_filter (.doc q) rep =
        some ("db.adminCommand(\n" ++
          MF.stringify_for_mongosh
            (.doc (.cons "setQuerySettings"
              (.doc (sdoc ([(cmd, coll), ("$db", db)] ++
                (match (MF.transform_to_mongosh rep).getD .null with
                 | .arr l => [("pipeline", .arr l)]
                 | tq => [("filter", tq)]) ++
                (match lookupD q "sort" with
                 | some sv => if truthy sv then [("sort", sv)] else []
                 | none => []))))
              (.cons "settings" (.doc (.cons "reject" (.bool true) .nil)) .nil))) 2 ++ "\n)") := by
  intro q ns cmd db coll rep h1 h2 h3 h4 n1 n2 n3 n4
  simp only [MF.create_rejection_filter, h1, h2, h3, h4]
  rcases htq : (MF.transform_to_mongosh rep).getD .null with _ | b | n | s | l | d <;>
    rcases hsort : lookupD q "sort" with _ | sv
  all_goals try (cases htr : truthy sv)
  all_goals simp [dictSet, n1, n2, n3, n4, sdoc, *]

/-- Claim C6 amended, witness: a shape with the unsupported command
count, cmdNs entries and a sort still produces the full rejection
command text. -/
theorem C6_rejection_builder_amended_witness :
    MF.create_rejection_filter
      (.doc (.cons "command" (.str "count")
        (.cons "cmdNs" (.doc (.cons "db" (.str "d") (.cons "coll" (.str "c") .nil)))
        (.cons "sort" (.doc (.cons "x" (.int 1) .nil)) .nil))))
      (.doc (.cons "a" (.int 1) .nil)) =
      some ("db.adminCommand(\n\x7b\n    \"setQuerySettings\": \x7b\n      \"count\": \"c\",\n      \"$db\": \"d\",\n      \"filter\": \x7b\n        \"a\": 1\n      \x7d,\n      \"sort\": \x7b\n        \"x\": 1\n      \x7d\n    \x7d,\n    \"settings\": \x7b\n      \"reject\": true\n    \x7d\n  \x7d\n)") := by
  rw [C6_rejection_builder_amended
    (.cons "command" (.str "count")
      (.cons "cmdNs" (.doc (.cons "db" (.str "d") (.cons "coll" (.str "c") .nil)))
      (.cons "sort" (.doc (.cons "x" (.int 1) .nil)) .nil)))
    (.cons "db" (.str "d") (.cons "coll" (.str "c") .nil))
    "count" (.str "d") (.str "c") (.doc (.cons "a" (.int 1) .nil))
    (by decide) (by decide) (by decide) (by decide)
    (by decide) (by decide) (by decide) (by decide)]
  decide

/-- Presence in the settings map after an overwriting insertion. -/
theorem assocGet_set_isSome : ∀ (m : List (String × SVal)) (k h : String) (v : SVal),
    (MF.assocGet (MF.assocSet m k v) h).isSome = (decide (k = h) || (MF.assocGet m h).isSome) := by
  intro m k h v
  induction m with
  | nil =>
    by_cases h2 : k = h <;> simp [MF.assocSet, MF.assocGet, h2]
  | cons p m ih =>
    rcases p with ⟨k1, v1⟩
    by_cases h1 : k1 = k
    · subst h1
      by_cases h2 : k1 = h <;> simp [MF.assocSet, MF.assocGet, h2]
    · by_cases h2 : k1 = h
      · subst h2
        simp [MF.assocSet, MF.assocGet, h1]
      · simp [MF.assocSet, MF.assocGet, h1, h2, ih]

/-- One settings record steps the map build by inserting its chosen
shape when truthy and skipping it otherwise. -/
theorem buildSettingsMap_step : ∀ (skvs dd : SDoc) (rest : List SVal) (m0 : List (String × SVal)),
    (lookupD skvs "debugQueryShape").getD (.doc .nil) = .doc dd →
    MF.buildSettingsMap (.doc skvs :: rest) m0 =
      (if truthy (chosenOf dd) = true then
        MF.buildSettingsMap rest (MF.assocSet m0 (MF.hash_query_shape (chosenOf dd)) (.doc skvs))
      else MF.buildSettingsMap rest m0) := by
  intro skvs dd rest m0 hdbg
  simp only [MF.buildSettingsMap, hdbg, chosenOf]

/-- Characterization of the settings map: an entry is present under a
hash exactly when it was present initially or some settings record
offers a truthy chosen shape with that hash. -/
theorem buildSettingsMap_spec : ∀ (settings : List SVal) (m0 : List (String × SVal)),
    (∀ s ∈ settings, (chosenShape s).isSome) →
    ∃ m, MF.buildSettingsMap settings m0 = some m ∧
      ∀ h, ((MF.assocGet m h).isSome = true ↔
        ((MF.assocGet m0 h).isSome = true ∨ ∃ s ∈ settings, ∃ q, chosenShape s = some q ∧
          truthy q = true ∧ MF.hash_query_shape q = h)) := by
  intro settings
  induction settings with
  | nil =>
    intro m0 _
    exact ⟨m0, rfl, fun h => by simp⟩
  | cons s rest ih =>
    intro m0 hwf
    have hs := hwf s (List.mem_cons_self s rest)
    have hwfrest : ∀ s2 ∈ rest, (chosenShape s2).isSome :=
      fun s2 hs2 => hwf s2 (List.mem_cons_of_mem _ hs2)
    rcases s with _ | b | n | st | l | skvs <;> try (simp [chosenShape] at hs)
    rcases hdbg : (lookupD skvs "debugQueryShape").getD (.doc .nil) with _ | b2 | n2 | s2 | l2 | dd <;>
      try (simp [chosenShape, hdbg] at hs)
    have hchosen : chosenShape (.doc skvs) = some (chosenOf dd) := by
      simp [chosenShape, hdbg]
    by_cases htq : truthy (chosenOf dd) = true
    · obtain ⟨m, hm, hiff⟩ :=
        ih (MF.assocSet m0 (MF.hash_query_shape (chosenOf dd)) (.doc skvs)) hwfrest
      refine ⟨m, ?_, ?_⟩
      · rw [buildSettingsMap_step skvs dd rest m0 hdbg, if_pos htq]
        exact hm
      · intro h
        rw [hiff h, assocGet_set_isSome]
        constructor
        · intro hcase
          rcases hcase with hor | hrest
          · rcases Bool.or_eq_true_iff.mp hor with hkh | hm0
            · exact Or.inr ⟨.doc skvs, List.mem_cons_self _ _, chosenOf dd, hchosen, htq,
                of_decide_eq_true hkh⟩
            · exact Or.inl hm0
          · rcases hrest with ⟨s2, hs2, q2, hq2, ht2, hh2⟩
            exact Or.inr ⟨s2, List.mem_cons_of_mem _ hs2, q2, hq2, ht2, hh2⟩
        · intro hcase
          rcases hcase with hm0 | ⟨s2, hs2, q2, hq2, ht2, hh2⟩
          · exact Or.inl (by simp [hm0])
          · rcases List.mem_cons.mp hs2 with rfl | hs2r
            · rw [hchosen] at hq2
              cases hq2
              exact Or.inl (by simp [hh2])
            · exact Or.inr ⟨s2, hs2r, q2, hq2, ht2, hh2⟩
    · obtain ⟨m, hm, hiff⟩ := ih m0 hwfrest
      refine ⟨m, ?_, ?_⟩
      · rw [buildSettingsMap_step skvs dd rest m0 hdbg, if_neg htq]
        exact hm
      · intro h
        rw [hiff h]
        constructor
        · intro hcase
          rcases hcase with hm0 | ⟨s2, hs2, q2, hq2, ht2, hh2⟩
          · exact Or.inl hm0
          · exact Or.inr ⟨s2, List.mem_cons_of_mem _ hs2, q2, hq2, ht2, hh2⟩
        · intro hcase
          rcases hcase with hm0 | ⟨s2, hs2, q2, hq2, ht2, hh2⟩
          · exact Or.inl hm0
          · rcases List.mem_cons.mp hs2 with rfl | hs2r
            · rw [hchosen] at hq2
              cases hq2
              exact absurd ht2 htq
            · exact Or.inr ⟨s2, hs2r, q2, hq2, ht2, hh2⟩

/-- Characterization of the stats loop of correlate_queries: one pair
per supported record in input order, each carrying the map entry under
the hash of its shape. -/
theorem correlateStats_spec : ∀ (stats : List SVal) (m : List (String × SVal)),
    (∀ t ∈ stats, (statQS t).isSome) →
    ∃ l, MF.correlateStats stats m = some l ∧
      l.map Prod.fst = stats.filter supportedB ∧
      ∀ p ∈ l, p.2 = MF.assocGet m (MF.hash_query_shape (statShape p.1)) := by
  intro stats
  induction stats with
  | nil =>
    intro m _
    exact ⟨[], rfl, rfl, by simp⟩
  | cons t rest ih =>
    intro m hwf
    have ht := hwf t (List.mem_cons_self t rest)
    obtain ⟨l, hl, hmap, hp⟩ := ih m (fun t2 h2 => hwf t2 (List.mem_cons_of_mem _ h2))
    rcases t with _ | b | n | s | ll | skvs <;> try (simp [statQS] at ht)
    rcases hkey : lookupD skvs "key" with _ | kv
    · simp [statQS, hkey] at ht
    rcases kv with _ | b2 | n2 | s2 | l2 | kd <;> try (simp [statQS, hkey] at ht)
    rcases hqs : lookupD kd "queryShape" with _ | qv
    · simp [statQS, hkey, hqs] at ht
    rcases qv with _ | b3 | n3 | s3 | l3 | qd <;> try (simp [statQS, hkey, hqs] at ht)
    have hstatqs : statQS (.doc skvs) = some qd := by simp [statQS, hkey, hqs]
    by_cases hfind : lookupD qd "command" = some (.str "find")
    · refine ⟨(.doc skvs,
        MF.assocGet m (MF.hash_query_shape ((lookupD qd "filter").getD (.doc .nil)))) :: l,
        ?_, ?_, ?_⟩
      · simp only [MF.correlateStats, hkey, hqs, hfind, if_true, hl]
      · simp only [List.map_cons, hmap, List.filter_cons]
        rw [if_pos (by simp [supportedB, hstatqs, hfind])]
      · intro p hpmem
        rcases List.mem_cons.mp hpmem with rfl | hmem
        · simp [statShape, hstatqs, hfind]
        · exact hp p hmem
    · by_cases hagg : lookupD qd "command" = some (.str "aggregate")
      · refine ⟨(.doc skvs,
          MF.assocGet m (MF.hash_query_shape ((lookupD qd "pipeline").getD (.arr .nil)))) :: l,
          ?_, ?_, ?_⟩
        · simp only [MF.correlateStats, hkey, hqs, hfind, hagg, if_true, if_false, hl]
          simp [hfind]
        · simp only [List.map_cons, hmap, List.filter_cons]
          rw [if_pos (by simp [supportedB, hstatqs, hagg])]
        · intro p hpmem
          rcases List.mem_cons.mp hpmem with rfl | hmem
          · simp [statShape, hstatqs, hfind]
          · exact hp p hmem
      · refine ⟨l, ?_, ?_, hp⟩
        · simp only [MF.correlateStats, hkey, hqs]
          simp [hfind, hagg, hl]
        · rw [hmap, List.filter_cons, if_neg (by simp [supportedB, hstatqs, hfind, hagg])]

/-- Claim C5, counterexample: a settings record whose debug filter is
the empty document is omitted from the hash map, so a find stats record
with the empty filter is paired with an absent match even though the
settings record carries a structurally identical filter with the same
shape hash. -/
theorem C5_counterexample :
    MF.correlate_queries
      [.doc (.cons "key" (.doc (.cons "queryShape" (.doc (.cons "command" (.str "find")
        (.cons "filter" (.doc .nil) .nil))) .nil)) .nil)]
      [.doc (.cons "debugQueryShape" (.doc (.cons "filter" (.doc .nil)
        (.cons "cmdNs" (.doc (.cons "db" (.str "t") .nil)) .nil))) .nil)] =
      some [(.doc (.cons "key" (.doc (.cons "queryShape" (.doc (.cons "command" (.str "find")
        (.cons "filter" (.doc .nil) .nil))) .nil)) .nil), none)]
  ∧ lookupD (.cons "filter" (.doc .nil)
      (.cons "cmdNs" (.doc (.cons "db" (.str "t") .nil)) .nil)) "filter" = some (.doc .nil)
  ∧ lookupD (.cons "command" (.str "find") (.cons "filter" (.doc .nil) .nil)) "filter" =
      some (.doc .nil) := by
  exact ⟨by decide, by decide, by decide⟩

/-- Claim C5, amended: on well-formed inputs correlate_queries returns
one pair per supported stats record, preserving input order and
skipping unsupported commands without error, and the match is present
exactly when some settings record offers a truthy filter-or-pipeline
shape with the same hash as the filter of a find record or the pipeline
of an aggregate record; a settings record whose chosen shape is falsy,
the empty filter document included, never contributes a match. -/
theorem C5_correlator_amended : ∀ (stats settings : List SVal),
    (∀ t ∈ stats, (statQS t).isSome) →
    (∀ s ∈ settings, (chosenShape s).isSome) →
    ∃ l, MF.correlate_queries stats settings = some l ∧
      l.map Prod.fst = stats.filter supportedB ∧
      ∀ p ∈ l, ((p.2).isSome = true ↔ ∃ s ∈ settings, ∃ q, chosenShape s = some q ∧
        truthy q = true ∧ MF.hash_query_shape q = MF.hash_query_shape (statShape p.1)) := by
  intro stats settings hst hset
  obtain ⟨m, hm, hmiff⟩ := buildSettingsMap_spec settings [] hset
  obtain ⟨l, hl, hmap, hpair⟩ := correlateStats_spec stats m hst
  refine ⟨l, ?_, hmap, ?_⟩
  · simp only [MF.correlate_queries, hm, hl]
  · intro p hp
    rw [hpair p hp]
    have h2 := hmiff (MF.hash_query_shape (statShape p.1))
    simpa [MF.assocGet] using h2

/-- Claim C5 amended, witness: one settings record with a truthy filter
matches the find stats record with the structurally identical filter. -/
theorem C5_correlator_amended_witness :
    ∃ l, MF.correlate_queries
      [.doc (.cons "key" (.doc (.cons "queryShape" (.doc (.cons "command" (.str "find")
        (.cons "filter" (.doc (.cons "a" (.str "?number") .nil)) .nil))) .nil)) .nil)]
      [.doc (.cons "debugQueryShape" (.doc (.cons "filter"
        (.doc (.cons "a" (.str "?number") .nil)) .nil)) .nil)] = some l ∧
      l.map Prod.fst =
        [.doc (.cons "key" (.doc (.cons "queryShape" (.doc (.cons "command" (.str "find")
          (.cons "filter" (.doc (.cons "a" (.str "?number") .nil)) .nil))) .nil)) .nil)].filter
          supportedB ∧
      ∀ p ∈ l, ((p.2).isSome = true ↔ ∃ s ∈ [SVal.doc (.cons "debugQueryShape" (.doc (.cons "filter"
        (.doc (.cons "a" (.str "?number") .nil)) .nil)) .nil)], ∃ q, chosenShape s = some q ∧
        truthy q = true ∧ MF.hash_query_shape q = MF.hash_query_shape (statShape p.1)) :=
  C5_correlator_amended _ _ (by decide) (by decide)

/-- Claim C9: a settings record whose debug filter is the empty
document and which has no pipeline is omitted from the hash lookup, and
consequently a find stats record with the empty filter receives an
absent match even when such a settings record is present. -/
theorem C9_empty_filter_lookup_gap :
    (∀ (skvs dd : SDoc) (rest : List SVal) (m : List (String × SVal)),
        (lookupD skvs "debugQueryShape").getD (.doc .nil) = .doc dd →
        lookupD dd "filter" = some (.doc .nil) →
        lookupD dd "pipeline" = none →
        MF.buildSettingsMap (.doc skvs :: rest) m = MF.buildSettingsMap rest m)
  ∧ MF.correlate_queries
      [.doc (.cons "key" (.doc (.cons "queryShape" (.doc (.cons "command" (.str "find")
        (.cons "filter" (.doc .nil) .nil))) .nil)) .nil)]
      [.doc (.cons "debugQueryShape" (.doc (.cons "filter" (.doc .nil) .nil)) .nil)] =
      some [(.doc (.cons "key" (.doc (.cons "queryShape" (.doc (.cons "command" (.str "find")
        (.cons "filter" (.doc .nil) .nil))) .nil)) .nil), none)] := by
  constructor
  · intro skvs dd rest m hdbg hf hp
    have hch : chosenOf dd = .null := by simp [chosenOf, hf, hp, truthy]
    rw [buildSettingsMap_step skvs dd rest m hdbg, hch]
    simp [truthy]
  · decide

/-- Claim C9, witness: a concrete settings record with the empty debug
filter steps the map build without inserting anything. -/
theorem C9_empty_filter_lookup_gap_witness :
    MF.buildSettingsMap
      [.doc (.cons "debugQueryShape" (.doc (.cons "filter" (.doc .nil) .nil)) .nil)] [] =
      MF.buildSettingsMap [] [] :=
  C9_empty_filter_lookup_gap.1
    (.cons "debugQueryShape" (.doc (.cons "filter" (.doc .nil) .nil)) .nil)
    (.cons "filter" (.doc .nil) .nil) [] [] (by decide) (by decide) (by decide)

/-- Claim C1, witness: the uniqueness-and-direction clause applied to
the concrete example of the specification. -/
theorem C1_suggest_index_esr_witness :
    ((([("a", (1 : Int)), ("c", 1), ("b", 1)] : List (String × Int)).map Prod.fst).Nodup ∧
      ∀ p ∈ ([("a", (1 : Int)), ("c", 1), ("b", 1)] : List (String × Int)), p.2 = 1) :=
  C1_suggest_index_esr.2.1
    (.doc (.cons "a" (.str "?number") (.cons "b" (.doc (.cons "$gt" (.str "?number") .nil)) .nil)))
    (.doc (.cons "c" (.int 1) .nil)) ["c"] [("a", 1), ("c", 1), ("b", 1)]
    (by decide) (by decide) (by decide)
